import Mathlib

/-!
Verification development for the PipeANN graph-structure inspector
(`src/graph_stats.cpp`).  Files are modelled as lists of bytes (`List Nat`,
each byte taken mod 256); an absent or unopenable file is `none`.  Machine
`size_t`/`uint64_t` arithmetic is carried out in `Nat` with an explicit
`% 2^64` wherever the C++ accumulators can wrap.  `double` is modelled as
exact rational arithmetic (`ℚ`); the quantities the theorems below touch
stay far below 2^53, where `double` is exact.  `std::ifstream` semantics:
a read of `n` bytes succeeds iff `n` bytes remain, a failed read puts the
stream in a failed state that ends every scanning loop, and a forward seek
on a regular file succeeds even past end-of-file (the failure then
surfaces at the next read).
-/

namespace PipeANN

/-- Value of `std::numeric_limits<size_t>::max()`, the sentinel used for
`degree_min` before any node is seen. -/
def SIZE_MAX : Nat := 2 ^ 64 - 1

/-- Modulus of 64-bit unsigned arithmetic. -/
def U64_MOD : Nat := 2 ^ 64

/-- Little-endian value of a byte list (each entry taken mod 256), as read
by `ifstream::read` into an unsigned integer. -/
def leVal : List Nat → Nat
  | [] => 0
  | b :: bs => b % 256 + 256 * leVal bs

/-- Read `n` bytes little-endian at position `pos`; `none` models a short
read (which sets the stream's fail state).  The availability test
`pos + n ≤ f.length` is phrased as "the file still has a byte at index
`pos + n - 1`" (see `readLE_eq`), the form a stream reader actually
observes; all reads in graph_stats.cpp have `n ≥ 1`. -/
def readLE (f : List Nat) (pos n : Nat) : Option Nat :=
  if (f.drop (pos + n - 1)).isEmpty then none
  else some (leVal ((f.drop pos).take n))

/-- Accumulator shared by all three stats loops in `graph_stats.cpp`:
`total_edges`, `degree_min` (sentinel `SIZE_MAX`), `degree_max`,
`weak_count`. -/
structure DegAcc where
  totalEdges : Nat
  degMin : Nat
  degMax : Nat
  weakCount : Nat
  deriving Repr, DecidableEq

/-- Initial accumulator: `total_edges = 0`, `degree_min = SIZE_MAX`,
`degree_max = 0`, `weak_count = 0`. -/
def DegAcc.init : DegAcc := ⟨0, SIZE_MAX, 0, 0⟩

/-- One node's contribution: lines 102-108 / 352-355 of graph_stats.cpp.
`totalEdges` is a `size_t` accumulation, hence the `% 2^64`. -/
def DegAcc.step (a : DegAcc) (deg wthr : Nat) : DegAcc :=
  { totalEdges := (a.totalEdges + deg) % U64_MOD
    degMin := if deg < a.degMin then deg else a.degMin
    degMax := if a.degMax < deg then deg else a.degMax
    weakCount := if deg < wthr then a.weakCount + 1 else a.weakCount }

/-- Fold a list of degrees through `DegAcc.step`. -/
def statsOfDegs (degs : List Nat) (wthr : Nat) : DegAcc :=
  degs.foldl (fun a d => a.step d wthr) DegAcc.init

/-- Final `degree_min`: the sentinel collapses to 0 (line 55 / 120 / 359). -/
def degMinOut (a : DegAcc) : Nat := if a.degMin = SIZE_MAX then 0 else a.degMin

/-- Final `degree_avg`: `total_edges / total_nodes` when `total_nodes > 0`,
else 0 (lines 56, 121, 360). -/
def avgOut (a : DegAcc) (n : Nat) : ℚ := if 0 < n then (a.totalEdges : ℚ) / (n : ℚ) else 0

/-- GraphStats of graph_stats.h with all fields default-zero. -/
structure GraphStats where
  total_nodes : Nat := 0
  active_nodes : Nat := 0
  frozen_nodes : Nat := 0
  total_edges : Nat := 0
  degree_min : Nat := 0
  degree_avg : ℚ := 0
  degree_max : Nat := 0
  weak_count : Nat := 0
  entry_point : Nat := 0
  deriving Repr, DecidableEq

/-- Degrees fetched by the in-memory loop (graph_stats.cpp lines 43-44):
`graph[i].size()` for `i = 0 .. total-1`.  The C++ `operator[]` is
unchecked; the access is modelled as `(graph[i]?).getD []`, whose `none`
branch is the out-of-range case. -/
def degListOf (graph : List (List Nat)) (total : Nat) : List Nat :=
  (List.range total).map fun i => ((graph[i]?).getD []).length

/-- In-memory stats (graph_stats.cpp lines 26-60). -/
def compute_graph_stats (graph : List (List Nat)) (nd num_frozen_pts ep weak_threshold : Nat) :
    GraphStats :=
  if nd + num_frozen_pts = 0 then
    { total_nodes := nd + num_frozen_pts, active_nodes := nd, frozen_nodes := num_frozen_pts,
      entry_point := ep }
  else
    { total_nodes := nd + num_frozen_pts, active_nodes := nd, frozen_nodes := num_frozen_pts,
      total_edges := (statsOfDegs (degListOf graph (nd + num_frozen_pts)) weak_threshold).totalEdges,
      degree_min := degMinOut (statsOfDegs (degListOf graph (nd + num_frozen_pts)) weak_threshold),
      degree_avg := avgOut (statsOfDegs (degListOf graph (nd + num_frozen_pts)) weak_threshold)
        (nd + num_frozen_pts),
      degree_max := (statsOfDegs (degListOf graph (nd + num_frozen_pts)) weak_threshold).degMax,
      weak_count := (statsOfDegs (degListOf graph (nd + num_frozen_pts)) weak_threshold).weakCount,
      entry_point := ep }

/-- The layout-A/B scan loop (graph_stats.cpp lines 96-115), fuel-indexed.
Each successful iteration reads a `u32` degree `k`, accumulates it, and
seeks forward `4*k` bytes; `bytes_read` is a `size_t` counter compared to
`expected_file_size` by equality.  Any fuel of at least
`(f.length - pos)/4 + 1` yields the loop's result (see
`scanGo_fuel_irrelevant`); fuel exhaustion is unreachable from
`compute_graph_stats_from_file`, which passes `f.length + 1`. -/
def scanGo (f : List Nat) (expected : Nat) : Nat → Nat → Nat → Nat → DegAcc → Nat × DegAcc
  | 0, _, _, nodes, acc => (nodes, acc)
  | fuel + 1, pos, bytesRead, nodes, acc =>
    if bytesRead = expected then (nodes, acc)
    else if pos + 4 ≤ f.length then
      scanGo f expected fuel (pos + 4 + 4 * leVal ((f.drop pos).take 4))
        ((bytesRead + 4 + 4 * leVal ((f.drop pos).take 4)) % U64_MOD)
        (nodes + 1) (acc.step (leVal ((f.drop pos).take 4)) 2)
    else (nodes, acc)

/-- Final stats assembly of `compute_graph_stats_from_file` (graph_stats.cpp
lines 117-124) from the scan loop's `(nodes, accumulator)` result. -/
def renderScan (r : Nat × DegAcc) (ep frozen : Nat) : GraphStats :=
  { total_nodes := r.1
    active_nodes := if frozen ≤ r.1 then r.1 - frozen else 0
    frozen_nodes := frozen
    total_edges := r.2.totalEdges
    degree_min := degMinOut r.2
    degree_avg := avgOut r.2 r.1
    degree_max := r.2.degMax
    weak_count := r.2.weakCount
    entry_point := ep }

/-- Layout-A/B file stats (graph_stats.cpp lines 62-125): 24-byte header
`(expected_file_size:u64, width:u32, ep:u32, num_frozen_pts:u64)` at
`offset`, then the scan loop.  `none` models a file that cannot be
opened; a header short-read returns the all-zero stats. -/
def compute_graph_stats_from_file (file : Option (List Nat)) (offset : Nat) : GraphStats :=
  match file with
  | none => {}
  | some f =>
    match readLE f offset 8, readLE f (offset + 8) 4, readLE f (offset + 12) 4,
        readLE f (offset + 16) 8 with
    | some expected, some _width, some ep, some frozen =>
      renderScan (scanGo f expected (f.length + 1) (offset + 24) 24 0 DegAcc.init) ep frozen
    | _, _, _, _ => {}

/-! ### Layout C: the disk-paged index reader -/

/-- Disk-index element type (graph_stats.h): determines the byte size of
one vector coordinate. -/
inductive DiskIndexDataType
  | kFloat
  | kUint8
  | kInt8
  deriving Repr, DecidableEq

/-- elem_size of graph_stats.cpp lines 15-22. -/
def elem_size : DiskIndexDataType → Nat
  | .kFloat => 4
  | .kUint8 => 1
  | .kInt8 => 1

/-- kSectorLen: fixed 4096-byte pages. -/
def kSectorLen : Nat := 4096

/-- kDiskIndexDataOffset: the body starts at byte 4096. -/
def kDiskIndexDataOffset : Nat := 4096

/-- The 5-u64 geometry block of a layout-C header. -/
structure DiskGeometry where
  disk_nnodes : Nat
  disk_ndims : Nat
  medoid_id : Nat
  max_node_len : Nat
  nnodes_per_sector : Nat
  deriving Repr, DecidableEq

/-- Outcome of the layout-C header resolution: the tagged C1 variant, the
untagged C2 variant, or a header short-read. -/
inductive HeaderResolution
  | tagged : DiskGeometry → HeaderResolution
  | untagged : DiskGeometry → HeaderResolution
  | unreadable : HeaderResolution
  deriving Repr, DecidableEq

/-- Reinterpret 4 little-endian bytes as a signed 32-bit integer
(two's complement), as the `int32_t meta_npts` read does. -/
def toInt32 (v : Nat) : Int := if v < 2 ^ 31 then (v : Int) else (v : Int) - 2 ^ 32

/-- Geometry block decoded at `pos` (total decoding used to state the
header-resolution theorem; agrees with `readGeo` when 40 bytes remain). -/
def mkGeoAt (f : List Nat) (pos : Nat) : DiskGeometry :=
  ⟨leVal ((f.drop pos).take 8), leVal ((f.drop (pos + 8)).take 8),
    leVal ((f.drop (pos + 16)).take 8), leVal ((f.drop (pos + 24)).take 8),
    leVal ((f.drop (pos + 32)).take 8)⟩

/-- Read the 5-u64 geometry block at `pos`; `none` on any short read. -/
def readGeo (f : List Nat) (pos : Nat) : Option DiskGeometry :=
  match readLE f pos 8, readLE f (pos + 8) 8, readLE f (pos + 16) 8,
      readLE f (pos + 24) 8, readLE f (pos + 32) 8 with
  | some a, some b, some c, some d, some e => some ⟨a, b, c, d, e⟩
  | _, _, _, _, _ => none

/-- Layout-C header resolver (graph_stats.cpp lines 284-308, identical in
the three disk-index entry points): read the 8-byte `(npts_meta,
ndims_meta)` tag; if that read succeeded and `npts_meta >= 5` as a signed
32-bit value, commit to the tagged variant and read the geometry at
offset 8; otherwise clear the stream, rewind to offset 0, and read the
geometry there.  A short geometry read yields `unreadable`. -/
def resolveDiskHeader (f : List Nat) : HeaderResolution :=
  match readLE f 0 4, readLE f 4 4 with
  | some npts, some _ndims =>
    if 5 ≤ toInt32 npts then
      match readGeo f 8 with
      | some g => .tagged g
      | none => .unreadable
    else
      match readGeo f 0 with
      | some g => .untagged g
      | none => .unreadable
  | _, _ =>
    match readGeo f 0 with
    | some g => .untagged g
    | none => .unreadable

/-- Inner slot loop of the paged stats reader (lines 341-356): slots `j`
counted down by `left` from `nnodes_per_sector`; stop at `node_id =
sec*records_per_page + j >= n_nodes` or when the degree field would
overrun the page; otherwise read the `u32` degree at in-page offset
`j*max_node_len + n_dims*esz` and accumulate.  All `size_t`/`u64` sums
and products carry `% 2^64`. -/
def innerLoop (page : List Nat) (nnodes mrl dimBytes secBase : Nat) :
    Nat → Nat → DegAcc → DegAcc
  | 0, _, acc => acc
  | left + 1, j, acc =>
    if nnodes ≤ (secBase + j) % U64_MOD then acc
    else if kSectorLen < (j * mrl % U64_MOD + dimBytes + 4) % U64_MOD then acc
    else
      innerLoop page nnodes mrl dimBytes secBase left (j + 1)
        (acc.step (leVal ((page.drop ((j * mrl % U64_MOD + dimBytes) % U64_MOD)).take 4)) 2)

/-- Outer sector loop of the paged stats reader (lines 336-357): read
`n_sectors` pages of exactly 4096 bytes sequentially from the body
offset; a short page read (the file has no byte at the page's last
index) ends the loop. -/
def sectorLoop (f : List Nat) (nnodes rpp mrl dimBytes : Nat) :
    Nat → Nat → DegAcc → DegAcc
  | 0, _, acc => acc
  | left + 1, sec, acc =>
    if (f.drop (kDiskIndexDataOffset + sec * kSectorLen + kSectorLen - 1)).isEmpty then acc
    else
      sectorLoop f nnodes rpp mrl dimBytes left (sec + 1)
        (innerLoop ((f.drop (kDiskIndexDataOffset + sec * kSectorLen)).take kSectorLen)
          nnodes mrl dimBytes (sec * rpp % U64_MOD) rpp 0 acc)

/-- Final stats assembly of the paged reader (lines 358-363). -/
def renderDisk (g : DiskGeometry) (acc : DegAcc) : GraphStats :=
  { total_nodes := g.disk_nnodes
    active_nodes := g.disk_nnodes
    frozen_nodes := 0
    total_edges := acc.totalEdges
    degree_min := degMinOut acc
    degree_avg := avgOut acc g.disk_nnodes
    degree_max := acc.degMax
    weak_count := acc.weakCount
    entry_point := g.medoid_id % 2 ^ 32 }

/-- Geometry sanity check and stats body of
compute_graph_stats_from_disk_index (lines 309-363): reject geometry with
`max_node_len < n_dims*esz + 4` or `max_node_len > 4096`; when
`nnodes_per_sector == 0` (oversized multi-page records) return the
metadata-only stats with zero edge statistics; otherwise run the paged
scan over `ceil(n_nodes / records_per_page)` sectors. -/
def diskStatsFromGeo (f : List Nat) (dt : DiskIndexDataType) (g : DiskGeometry) : GraphStats :=
  if g.max_node_len < (g.disk_ndims * elem_size dt % U64_MOD + 4) % U64_MOD
      ∨ kSectorLen < g.max_node_len then {}
  else if g.nnodes_per_sector = 0 then
    { total_nodes := g.disk_nnodes, active_nodes := g.disk_nnodes, frozen_nodes := 0,
      total_edges := 0, degree_min := 0, degree_avg := 0, degree_max := 0, weak_count := 0,
      entry_point := g.medoid_id % 2 ^ 32 }
  else
    renderDisk g
      (sectorLoop f g.disk_nnodes g.nnodes_per_sector g.max_node_len
        (g.disk_ndims * elem_size dt % U64_MOD)
        ((g.disk_nnodes + g.nnodes_per_sector - 1) % U64_MOD / g.nnodes_per_sector) 0 DegAcc.init)

/-- compute_graph_stats_from_disk_index (graph_stats.cpp lines 275-364):
resolve the header, then the sanity check and paged scan; an unopenable
file or unreadable header returns the all-zero stats. -/
def compute_graph_stats_from_disk_index (file : Option (List Nat)) (dt : DiskIndexDataType) :
    GraphStats :=
  match file with
  | none => {}
  | some f =>
    match resolveDiskHeader f with
    | .unreadable => {}
    | .tagged g => diskStatsFromGeo f dt g
    | .untagged g => diskStatsFromGeo f dt g

/-! ### Small-graph samplers (out-neighbors plus reverse edges) -/

/-- Split a byte list into consecutive little-endian u32 values
(a buffered read of whole u32s; trailing bytes are dropped). -/
def decodeU32s : List Nat → List Nat
  | b0 :: b1 :: b2 :: b3 :: rest => leVal [b0, b1, b2, b3] :: decodeU32s rest
  | _ => []

/-- Reverse-edge insertion for one node (lines 239-243 / 519-523): for
each out-neighbor `v` of node `j`, append `j` to table slot `v` when
`v < bound`; targets at or above the bound have no slot and are dropped. -/
def pushRev (t : List (List Nat)) (j : Nat) (nbrs : List Nat) (bound : Nat) : List (List Nat) :=
  nbrs.foldl (fun acc v => if v < bound then acc.set v (acc.getD v [] ++ [j]) else acc) t

/-- Final truncation of both samplers (lines 247-251 / 527-531): when
fewer nodes were read than requested, the reverse table is cut down to
the nodes actually read. -/
def truncPair (p : List (List Nat) × List (List Nat)) : List (List Nat) × List (List Nat) :=
  (p.1, p.2.take p.1.length)

/-- Scan loop of print_small_graph_from_file (lines 225-246), fuel-indexed
like `scanGo`: read a degree, read that many neighbor ids (a short read
ends the loop), record the out-list and its reverse edges. -/
def smallGo (f : List Nat) (expected N : Nat) :
    Nat → Nat → Nat → List (List Nat) × List (List Nat) → List (List Nat) × List (List Nat)
  | 0, _, _, st => st
  | fuel + 1, pos, bytesRead, st =>
    if bytesRead = expected then st
    else if N ≤ st.1.length then st
    else if pos + 4 ≤ f.length then
      if pos + 4 + 4 * leVal ((f.drop pos).take 4) ≤ f.length then
        smallGo f expected N fuel (pos + 4 + 4 * leVal ((f.drop pos).take 4))
          ((bytesRead + 4 + 4 * leVal ((f.drop pos).take 4)) % U64_MOD)
          (st.1 ++ [decodeU32s ((f.drop (pos + 4)).take (4 * leVal ((f.drop pos).take 4)))],
           pushRev st.2 st.1.length
             (decodeU32s ((f.drop (pos + 4)).take (4 * leVal ((f.drop pos).take 4)))) N)
      else st
    else st

/-- print_small_graph_from_file (lines 196-273), with the text rendering
dropped: returns the out-neighbor lists of the nodes read and their
within-sample reverse-edge lists, or `none` when the file cannot be
opened or its 24-byte header cannot be read. -/
def print_small_graph_from_file (file : Option (List Nat)) (offset N : Nat) :
    Option (List (List Nat) × List (List Nat)) :=
  match file with
  | none => none
  | some f =>
    match readLE f offset 8, readLE f (offset + 8) 4, readLE f (offset + 12) 4,
        readLE f (offset + 16) 8 with
    | some expected, some _w, some _ep, some _fr =>
      some (truncPair (smallGo f expected N (f.length + 1)
        (offset + 24) 24 ([], List.replicate N [])))
    | _, _, _, _ => none

/-- Clamped neighbor extraction of the disk-index samplers (lines
507-518): `base` is the in-page offset of the degree field; the stored
degree is clamped to the number of whole u32 slots left before the page
boundary, and that many neighbor ids are copied. -/
def diskSlotNbrs (page : List Nat) (base : Nat) : List Nat :=
  decodeU32s ((page.drop (base + 4)).take
    (4 * (if kSectorLen < base + 4 + 4 * leVal ((page.drop base).take 4)
          then (kSectorLen - (base + 4)) / 4
          else leVal ((page.drop base).take 4))))

/-- Inner slot loop of print_small_graph_from_disk_index (lines 498-525). -/
def diskSmallInner (page : List Nat) (nnodes mrl dimBytes Ncl secBase : Nat) :
    Nat → Nat → List (List Nat) × List (List Nat) → List (List Nat) × List (List Nat)
  | 0, _, st => st
  | left + 1, j, st =>
    if Ncl ≤ st.1.length then st
    else if nnodes ≤ (secBase + j) % U64_MOD then st
    else if kSectorLen < (j * mrl % U64_MOD + dimBytes + 4) % U64_MOD then st
    else
      diskSmallInner page nnodes mrl dimBytes Ncl secBase left (j + 1)
        (st.1 ++ [diskSlotNbrs page ((j * mrl % U64_MOD + dimBytes) % U64_MOD)],
         pushRev st.2 st.1.length
           (diskSlotNbrs page ((j * mrl % U64_MOD + dimBytes) % U64_MOD)) Ncl)

/-- Outer sector loop of print_small_graph_from_disk_index (lines
493-526). -/
def diskSmallSector (f : List Nat) (nnodes rpp mrl dimBytes Ncl : Nat) :
    Nat → Nat → List (List Nat) × List (List Nat) → List (List Nat) × List (List Nat)
  | 0, _, st => st
  | left + 1, sec, st =>
    if Ncl ≤ st.1.length then st
    else if (f.drop (kDiskIndexDataOffset + sec * kSectorLen + kSectorLen - 1)).isEmpty then st
    else
      diskSmallSector f nnodes rpp mrl dimBytes Ncl left (sec + 1)
        (diskSmallInner ((f.drop (kDiskIndexDataOffset + sec * kSectorLen)).take kSectorLen)
          nnodes mrl dimBytes Ncl (sec * rpp % U64_MOD) rpp 0 st)

/-- print_small_graph_from_disk_index (lines 445-554) with the text
rendering dropped: header resolution, rejection of `nnodes_per_sector ==
0` and of bad geometry, the requested sample size clamped to
`disk_nnodes`, then the paged sampling loop and final truncation. -/
def print_small_graph_from_disk_index (file : Option (List Nat)) (dt : DiskIndexDataType)
    (N : Nat) : Option (List (List Nat) × List (List Nat)) :=
  match file with
  | none => none
  | some f =>
    match resolveDiskHeader f with
    | .unreadable => none
    | .tagged g | .untagged g =>
      if g.nnodes_per_sector = 0 then none
      else if g.max_node_len < (g.disk_ndims * elem_size dt % U64_MOD + 4) % U64_MOD
          ∨ kSectorLen < g.max_node_len then none
      else
        some (truncPair
          (diskSmallSector f g.disk_nnodes g.nnodes_per_sector g.max_node_len
            (g.disk_ndims * elem_size dt % U64_MOD) (min N g.disk_nnodes)
            ((g.disk_nnodes + g.nnodes_per_sector - 1) % U64_MOD / g.nnodes_per_sector) 0
            ([], List.replicate (min N g.disk_nnodes) [])))

/-- Reverse table built from a full list of out-neighbor lists: the
specification-level shape of the loops' incremental `pushRev` calls. -/
def revTableGo (bound : Nat) : List (List Nat) → Nat → List (List Nat) → List (List Nat)
  | t, _, [] => t
  | t, j, nbrs :: rest => revTableGo bound (pushRev t j nbrs bound) (j + 1) rest

/-- Reverse table of a sample: slot `v` collects every `j` whose
out-neighbor list contains `v < bound`. -/
def revTable (bound : Nat) (outs : List (List Nat)) : List (List Nat) :=
  revTableGo bound (List.replicate bound []) 0 outs

/-- Degree-field position of node `i` in a layout-C body, as §4.4 of the
spec describes the paging: page `i / records_per_page`, slot
`i % records_per_page`, degree at slot offset plus the coordinate bytes. -/
def degFieldPos (rpp mrl dimBytes i : Nat) : Nat :=
  kDiskIndexDataOffset + i / rpp * kSectorLen + i % rpp * mrl + dimBytes

/-- Degree field of node `i` read directly from the file bytes at its
layout-C position. -/
def degAt (f : List Nat) (rpp mrl dimBytes i : Nat) : Nat :=
  leVal ((f.drop (degFieldPos rpp mrl dimBytes i)).take 4)

/-! ### Byte encoders for building layout-A/B files (test-harness side) -/

/-- Little-endian encoding of `n` into `w` bytes (value taken mod `256^w`),
the byte image `ofstream::write` of a `w`-byte unsigned integer leaves. -/
def encodeLE : Nat → Nat → List Nat
  | 0, _ => []
  | w + 1, n => n % 256 :: encodeLE w (n / 256)

/-- Four-byte little-endian encoding (a `u32` on disk). -/
def encodeU32 (n : Nat) : List Nat := encodeLE 4 n

/-- Eight-byte little-endian encoding (a `u64` on disk). -/
def encodeU64 (n : Nat) : List Nat := encodeLE 8 n

/-- One layout-A record: `degree:u32` then the neighbor ids as `u32`s. -/
def encodeRecord (nbrs : List Nat) : List Nat :=
  encodeU32 nbrs.length ++ (nbrs.map encodeU32).flatten

/-- Concatenated byte image of a record list. -/
def recsBytes (recs : List (List Nat)) : List Nat := (recs.map encodeRecord).flatten

/-- Total byte size of a record list: `Σ (4 + 4*deg_i)`. -/
def recsSize (recs : List (List Nat)) : Nat := (recs.map fun r => 4 + 4 * r.length).sum

/-- The 24-byte layout-A header
`(expected_total_size:u64, width:u32, entry_point:u32, frozen_count:u64)`. -/
def hdrBytes (expectedSize width ep frozen : Nat) : List Nat :=
  encodeU64 expectedSize ++ (encodeU32 width ++ (encodeU32 ep ++ encodeU64 frozen))

/-- A well-formed layout-A file: header with
`expected_total_size = 24 + Σ(4 + 4*deg_i)`, then the records. -/
def encodeGraphFile (width ep frozen : Nat) (recs : List (List Nat)) : List Nat :=
  hdrBytes (24 + recsSize recs) width ep frozen ++ recsBytes recs

/-! ### Concrete byte files used by counterexamples and witnesses -/

/-- A 40-byte untagged layout-C header: `n_nodes = 3`, `n_dims = 1`,
`medoid = 0`, `max_record_len = 8`, `records_per_page = 0` (the oversized
multi-page-record variant). -/
def c3File : List Nat :=
  encodeU64 3 ++ (encodeU64 1 ++ (encodeU64 0 ++ (encodeU64 8 ++ encodeU64 0)))

/-- Untagged 40-byte geometry block `n_nodes = 2`, `n_dims = 1`,
`medoid = 0`, `max_record_len = 4090`, `records_per_page = 2`. -/
def c5Geo : List Nat :=
  encodeU64 2 ++ (encodeU64 1 ++ (encodeU64 0 ++ (encodeU64 4090 ++ encodeU64 2)))

/-- A layout-C file with the `c5Geo` geometry, whose second slot's degree
field would overrun the 4096-byte page: slot 1 sits at in-page offset
4090 and its degree field needs bytes 4094..4098 of the page.  Node 0's
degree field (page offset 4) holds 7; the bytes at file offset 8190
(where §4.4's formula places node 1's degree field) hold 5. -/
def c5BadFile : List Nat :=
  c5Geo ++ List.replicate 4056 0
    ++ ([0, 0, 0, 0] ++ (encodeU32 7 ++ List.replicate 4086 0))
    ++ [5, 0, 0, 0]

/-- A well-formed layout-C file (untagged geometry `n_nodes = 3`,
`n_dims = 1`, `medoid = 1`, `max_record_len = 16`, `records_per_page =
2`): two body pages, degrees 5, 1, 2, the second page only half
populated. -/
def c5GoodFile : List Nat :=
  encodeU64 3 ++ (encodeU64 1 ++ (encodeU64 1 ++ (encodeU64 16 ++ encodeU64 2)))
    ++ List.replicate 4056 0
    ++ ([0, 0, 0, 0] ++ encodeU32 5 ++ List.replicate 8 0
        ++ [0, 0, 0, 0] ++ encodeU32 1 ++ List.replicate 4072 0)
    ++ ([0, 0, 0, 0] ++ encodeU32 2 ++ List.replicate 4088 0)


/-- A well-formed layout-A file realising the spec's reverse-edge example:
records `0 -> [1, 5]`, `1 -> [2]`, `2 -> [0]` (target 5 lies outside a
sample of size 3). -/
def c7FileA : List Nat := encodeGraphFile 0 0 0 [[1, 5], [2], [0]]

/-- A single 4096-byte layout-C body page: one record (4 coordinate
bytes, degree 1, single neighbor id 0). -/
def c7Page : List Nat :=
  [0, 0, 0, 0] ++ (encodeU32 1 ++ (encodeU32 0 ++ List.replicate 4084 0))

/-- A well-formed one-node layout-C file (untagged geometry `n_nodes = 1`,
`n_dims = 1`, `medoid = 0`, `max_record_len = 8`, `records_per_page = 1`)
whose single node has the self-loop neighbor 0. -/
def c7DiskFile : List Nat :=
  encodeU64 1 ++ (encodeU64 1 ++ (encodeU64 0 ++ (encodeU64 8 ++ encodeU64 1)))
    ++ List.replicate 4056 0 ++ c7Page

/-! ### Basic lemmas about the byte model -/

lemma drop_isEmpty_iff (f : List Nat) (m : Nat) :
    (f.drop m).isEmpty = true ↔ f.length ≤ m := by
  rw [List.isEmpty_iff, List.drop_eq_nil_iff]

lemma readLE_eq (f : List Nat) (pos n : Nat) (hn : 0 < n) :
    readLE f pos n
      = if pos + n ≤ f.length then some (leVal ((f.drop pos).take n)) else none := by
  rw [readLE]
  by_cases h : pos + n ≤ f.length
  · rw [if_pos h, if_neg]
    simp only [drop_isEmpty_iff]
    omega
  · rw [if_neg h, if_pos]
    rw [drop_isEmpty_iff]
    omega

lemma encodeLE_length (w n : Nat) : (encodeLE w n).length = w := by
  induction w generalizing n with
  | zero => rfl
  | succ w ih => simp [encodeLE, ih]

lemma leVal_encodeLE (w n : Nat) : leVal (encodeLE w n) = n % 256 ^ w := by
  induction w generalizing n with
  | zero => simp [encodeLE, leVal, Nat.mod_one]
  | succ w ih =>
    have h : n % (256 * 256 ^ w) = n % 256 + 256 * (n / 256 % 256 ^ w) := Nat.mod_mul
    simp only [encodeLE, leVal, ih, pow_succ']
    omega

lemma leVal_lt (bs : List Nat) : leVal bs < 256 ^ bs.length := by
  induction bs with
  | nil => simp [leVal]
  | cons b rest ih =>
    have hb : b % 256 < 256 := Nat.mod_lt _ (by omega)
    simp only [leVal, List.length_cons, pow_succ']
    omega

lemma readLE_append_right (a b : List Nat) (p n : Nat) (hn : 0 < n) :
    readLE (a ++ b) (a.length + p) n = readLE b p n := by
  rw [readLE_eq _ _ _ hn, readLE_eq _ _ _ hn]
  simp only [List.drop_append, List.length_append]
  by_cases h : p + n ≤ b.length
  · rw [if_pos (by omega), if_pos h]
  · rw [if_neg (by omega), if_neg h]

lemma readLE_append_left (a b : List Nat) (p n : Nat) (hn : 0 < n) (h : p + n ≤ a.length) :
    readLE (a ++ b) p n = readLE a p n := by
  rw [readLE_eq _ _ _ hn, readLE_eq _ _ _ hn]
  simp only [List.length_append]
  rw [if_pos (by omega), if_pos h, List.drop_append_of_le_length (by omega),
    List.take_append_of_le_length (by simp [List.length_drop]; omega)]

lemma readLE_append_pos (a b : List Nat) (p q n : Nat) (hn : 0 < n) (h : q = a.length + p) :
    readLE (a ++ b) q n = readLE b p n := by
  subst h; exact readLE_append_right a b p n hn

lemma readLE_encodeLE (w n : Nat) (hw : 0 < w) : readLE (encodeLE w n) 0 w = some (n % 256 ^ w) := by
  rw [readLE_eq _ _ _ hw]
  simp [encodeLE_length, leVal_encodeLE, List.take_of_length_le, (encodeLE_length w n).le]

lemma hdrBytes_length (e w p f : Nat) : (hdrBytes e w p f).length = 24 := by
  simp [hdrBytes, encodeU32, encodeU64, encodeLE_length]

lemma readLE_hdr_expected (e w p fr : Nat) (body : List Nat) :
    readLE (hdrBytes e w p fr ++ body) 0 8 = some (e % 2 ^ 64) := by
  rw [hdrBytes, List.append_assoc,
    readLE_append_left _ _ 0 8 (by norm_num) (by simp [encodeU64, encodeLE_length])]
  rw [show (2 : Nat) ^ 64 = 256 ^ 8 by norm_num]
  exact readLE_encodeLE 8 e (by norm_num)

lemma readLE_hdr_width (e w p fr : Nat) (body : List Nat) :
    readLE (hdrBytes e w p fr ++ body) 8 4 = some (w % 2 ^ 32) := by
  rw [hdrBytes, List.append_assoc,
    readLE_append_pos _ _ 0 8 4 (by norm_num) (by simp [encodeU64, encodeLE_length]),
    readLE_append_left _ _ 0 4 (by norm_num) (by simp [encodeU32, encodeLE_length])]
  rw [show (2 : Nat) ^ 32 = 256 ^ 4 by norm_num]
  exact readLE_encodeLE 4 w (by norm_num)

lemma hdrBytes_append_assoc (e w p fr : Nat) (body : List Nat) :
    hdrBytes e w p fr ++ body
      = encodeU64 e ++ (encodeU32 w ++ (encodeU32 p ++ (encodeU64 fr ++ body))) := by
  simp [hdrBytes]

lemma readLE_hdr_ep (e w p fr : Nat) (body : List Nat) :
    readLE (hdrBytes e w p fr ++ body) 12 4 = some (p % 2 ^ 32) := by
  rw [hdrBytes_append_assoc,
    readLE_append_pos (encodeU64 e) _ 4 12 4 (by norm_num) (by simp [encodeU64, encodeLE_length]),
    readLE_append_pos (encodeU32 w) _ 0 4 4 (by norm_num) (by simp [encodeU32, encodeLE_length]),
    readLE_append_left (encodeU32 p) _ 0 4 (by norm_num) (by simp [encodeU32, encodeLE_length])]
  rw [show (2 : Nat) ^ 32 = 256 ^ 4 by norm_num]
  exact readLE_encodeLE 4 p (by norm_num)

lemma readLE_hdr_frozen (e w p fr : Nat) (body : List Nat) :
    readLE (hdrBytes e w p fr ++ body) 16 8 = some (fr % 2 ^ 64) := by
  rw [hdrBytes_append_assoc,
    readLE_append_pos (encodeU64 e) _ 8 16 8 (by norm_num) (by simp [encodeU64, encodeLE_length]),
    readLE_append_pos (encodeU32 w) _ 4 8 8 (by norm_num) (by simp [encodeU32, encodeLE_length]),
    readLE_append_pos (encodeU32 p) _ 0 4 8 (by norm_num) (by simp [encodeU32, encodeLE_length]),
    readLE_append_left (encodeU64 fr) _ 0 8 (by norm_num) (by simp [encodeU64, encodeLE_length])]
  rw [show (2 : Nat) ^ 64 = 256 ^ 8 by norm_num]
  exact readLE_encodeLE 8 fr (by norm_num)

lemma drop24_hdr (e w p fr : Nat) (body : List Nat) :
    (hdrBytes e w p fr ++ body).drop 24 = body :=
  List.drop_left' (hdrBytes_length e w p fr)

lemma flatten_encodeU32_length (r : List Nat) :
    ((r.map encodeU32).flatten).length = 4 * r.length := by
  induction r with
  | nil => simp
  | cons a t ih =>
    simp only [List.map_cons, List.flatten_cons, List.length_append, ih, List.length_cons]
    have h4 : (encodeU32 a).length = 4 := by simp [encodeU32, encodeLE_length]
    omega

lemma encodeRecord_length (r : List Nat) : (encodeRecord r).length = 4 + 4 * r.length := by
  rw [encodeRecord, List.length_append, flatten_encodeU32_length]
  simp [encodeU32, encodeLE_length]

lemma recsBytes_cons (r : List Nat) (rest : List (List Nat)) :
    recsBytes (r :: rest) = encodeRecord r ++ recsBytes rest := by
  simp [recsBytes]

lemma recsBytes_append (a b : List (List Nat)) :
    recsBytes (a ++ b) = recsBytes a ++ recsBytes b := by
  simp [recsBytes]

lemma recsSize_cons (r : List Nat) (rest : List (List Nat)) :
    recsSize (r :: rest) = 4 + 4 * r.length + recsSize rest := by
  simp only [recsSize, List.map_cons, List.sum_cons]

lemma recsBytes_length (recs : List (List Nat)) : (recsBytes recs).length = recsSize recs := by
  induction recs with
  | nil => rfl
  | cons r rest ih =>
    rw [recsBytes_cons, List.length_append, encodeRecord_length, ih, recsSize_cons]

lemma recsSize_append (a b : List (List Nat)) :
    recsSize (a ++ b) = recsSize a + recsSize b := by
  simp [recsSize]

lemma length_le_recsSize (recs : List (List Nat)) : recs.length ≤ recsSize recs := by
  induction recs with
  | nil => simp [recsSize]
  | cons r rest ih => rw [recsSize_cons]; simp; omega

lemma drop_shift (f : List Nat) (pos m : Nat) (x tail : List Nat)
    (hx : x.length = m) (h : f.drop pos = x ++ tail) : f.drop (pos + m) = tail := by
  have h2 : (f.drop pos).drop m = f.drop (pos + m) := by rw [List.drop_drop, Nat.add_comm]
  rw [← h2, h, List.drop_left' hx]

lemma recsSize_pos (r : List Nat) (rest : List (List Nat)) :
    4 ≤ recsSize (r :: rest) := by
  rw [recsSize_cons]; omega

/-! ### Field-wise behaviour of the shared degree accumulator -/

lemma foldl_step_totalEdges (degs : List Nat) (wthr : Nat) (a : DegAcc)
    (ha : a.totalEdges < U64_MOD) :
    (degs.foldl (fun x d => x.step d wthr) a).totalEdges = (a.totalEdges + degs.sum) % U64_MOD := by
  induction degs generalizing a with
  | nil => simpa using (Nat.mod_eq_of_lt ha).symm
  | cons d rest ih =>
    rw [List.foldl_cons]
    rw [ih _ (by simp [DegAcc.step]; exact Nat.mod_lt _ (by simp [U64_MOD]))]
    simp only [DegAcc.step, List.sum_cons]
    rw [Nat.mod_add_mod]
    ring_nf

lemma foldl_step_weakCount (degs : List Nat) (wthr : Nat) (a : DegAcc) :
    (degs.foldl (fun x d => x.step d wthr) a).weakCount
      = a.weakCount + degs.countP (fun d => decide (d < wthr)) := by
  induction degs generalizing a with
  | nil => simp
  | cons d rest ih =>
    rw [List.foldl_cons, ih, List.countP_cons]
    simp only [DegAcc.step]
    by_cases h : d < wthr
    · simp [h]; omega
    · simp [h]

lemma foldl_step_degMin_le (degs : List Nat) (wthr : Nat) (a : DegAcc) :
    (degs.foldl (fun x d => x.step d wthr) a).degMin ≤ a.degMin
      ∧ ∀ d ∈ degs, (degs.foldl (fun x d => x.step d wthr) a).degMin ≤ d := by
  induction degs generalizing a with
  | nil => simp
  | cons d rest ih =>
    rw [List.foldl_cons]
    obtain ⟨h1, h2⟩ := ih (a.step d wthr)
    have hstep : (a.step d wthr).degMin ≤ a.degMin ∧ (a.step d wthr).degMin ≤ d := by
      simp only [DegAcc.step]
      by_cases h : d < a.degMin <;> simp [h] <;> omega
    refine ⟨le_trans h1 hstep.1, ?_⟩
    intro x hx
    rcases List.mem_cons.mp hx with rfl | hx
    · exact le_trans h1 hstep.2
    · exact h2 x hx

lemma foldl_step_degMin_mem (degs : List Nat) (wthr : Nat) (a : DegAcc) :
    (degs.foldl (fun x d => x.step d wthr) a).degMin = a.degMin
      ∨ (degs.foldl (fun x d => x.step d wthr) a).degMin ∈ degs := by
  induction degs generalizing a with
  | nil => simp
  | cons d rest ih =>
    rw [List.foldl_cons]
    rcases ih (a.step d wthr) with h | h
    · rw [h]
      simp only [DegAcc.step]
      by_cases hd : d < a.degMin
      · simp [hd]
      · simp [hd]
    · exact Or.inr (List.mem_cons_of_mem _ h)

lemma foldl_step_degMax_le (degs : List Nat) (wthr : Nat) (a : DegAcc) :
    a.degMax ≤ (degs.foldl (fun x d => x.step d wthr) a).degMax
      ∧ ∀ d ∈ degs, d ≤ (degs.foldl (fun x d => x.step d wthr) a).degMax := by
  induction degs generalizing a with
  | nil => simp
  | cons d rest ih =>
    rw [List.foldl_cons]
    obtain ⟨h1, h2⟩ := ih (a.step d wthr)
    have hstep : a.degMax ≤ (a.step d wthr).degMax ∧ d ≤ (a.step d wthr).degMax := by
      simp only [DegAcc.step]
      by_cases h : a.degMax < d <;> simp [h] <;> omega
    refine ⟨le_trans hstep.1 h1, ?_⟩
    intro x hx
    rcases List.mem_cons.mp hx with rfl | hx
    · exact le_trans hstep.2 h1
    · exact h2 x hx

lemma foldl_step_degMax_mem (degs : List Nat) (wthr : Nat) (a : DegAcc) :
    (degs.foldl (fun x d => x.step d wthr) a).degMax = a.degMax
      ∨ (degs.foldl (fun x d => x.step d wthr) a).degMax ∈ degs := by
  induction degs generalizing a with
  | nil => simp
  | cons d rest ih =>
    rw [List.foldl_cons]
    rcases ih (a.step d wthr) with h | h
    · rw [h]
      simp only [DegAcc.step]
      by_cases hd : a.degMax < d
      · simp [hd]
      · simp [hd]
    · exact Or.inr (List.mem_cons_of_mem _ h)

/-! ### The layout-A/B scan loop: consuming well-formed records -/

lemma scanGo_records_full (recs : List (List Nat)) :
    ∀ (f tail : List Nat) (fuel pos bytesRead nodes : Nat) (acc : DegAcc) (expected : Nat),
      f.drop pos = recsBytes recs ++ tail →
      (∀ r ∈ recs, r.length < 2 ^ 32) →
      bytesRead + recsSize recs = expected →
      expected < U64_MOD →
      recs.length < fuel →
      scanGo f expected fuel pos bytesRead nodes acc =
        (nodes + recs.length, recs.foldl (fun a r => a.step r.length 2) acc) := by
  induction recs with
  | nil =>
    intro f tail fuel pos bytesRead nodes acc expected hdrop hdeg hsz hU hfuel
    obtain ⟨m, rfl⟩ : ∃ m, fuel = m + 1 := ⟨fuel - 1, by omega⟩
    simp only [recsSize, List.map_nil, List.sum_nil, Nat.add_zero] at hsz
    simp [scanGo, hsz]
  | cons r rest ih =>
    intro f tail fuel pos bytesRead nodes acc expected hdrop hdeg hsz hU hfuel
    obtain ⟨m, rfl⟩ : ∃ m, fuel = m + 1 := ⟨fuel - 1, by omega⟩
    rw [recsSize_cons] at hsz
    have h4 : (encodeU32 r.length).length = 4 := by simp [encodeU32, encodeLE_length]
    have hdrop' : f.drop pos
        = encodeU32 r.length ++ ((r.map encodeU32).flatten ++ (recsBytes rest ++ tail)) := by
      rw [hdrop, recsBytes_cons, encodeRecord, List.append_assoc, List.append_assoc]
    have hlen : (f.drop pos).length = f.length - pos := List.length_drop pos f
    have hlen' := congrArg List.length hdrop'
    rw [List.length_append, List.length_append, List.length_append,
      flatten_encodeU32_length, h4] at hlen'
    have hpos : pos + 4 ≤ f.length := by
      by_cases hp : pos ≤ f.length
      · omega
      · exfalso
        rw [List.drop_eq_nil_of_le (by omega)] at hdrop'
        have hcontra := congrArg List.length hdrop'
        rw [List.length_nil, List.length_append, List.length_append, List.length_append,
          flatten_encodeU32_length, h4] at hcontra
        omega
    have htake : (f.drop pos).take 4 = encodeU32 r.length := by
      rw [hdrop']
      exact List.take_left' h4
    have hk : leVal ((f.drop pos).take 4) = r.length := by
      rw [htake, encodeU32, leVal_encodeLE]
      have hb : r.length < 256 ^ 4 := by
        have := hdeg r (List.mem_cons_self r rest)
        norm_num
        omega
      exact Nat.mod_eq_of_lt hb
    have hne : bytesRead ≠ expected := by omega
    rw [scanGo, if_neg hne, if_pos hpos, hk]
    have hmod : (bytesRead + 4 + 4 * r.length) % U64_MOD = bytesRead + 4 + 4 * r.length :=
      Nat.mod_eq_of_lt (by omega)
    rw [hmod]
    have hdropnext : f.drop (pos + 4 + 4 * r.length) = recsBytes rest ++ tail := by
      have hds := drop_shift f pos (4 + 4 * r.length) (encodeRecord r) (recsBytes rest ++ tail)
        (encodeRecord_length r)
        (by rw [hdrop, recsBytes_cons, List.append_assoc])
      rw [show pos + 4 + 4 * r.length = pos + (4 + 4 * r.length) by omega]
      exact hds
    rw [ih f tail m (pos + 4 + 4 * r.length) (bytesRead + 4 + 4 * r.length) (nodes + 1)
      (acc.step r.length 2) expected hdropnext
      (fun x hx => hdeg x (List.mem_cons_of_mem _ hx)) (by omega) hU (by simpa using hfuel)]
    rw [List.foldl_cons]
    congr 1
    simp only [List.length_cons]
    omega

lemma scanGo_records_trunc (recs : List (List Nat)) :
    ∀ (f : List Nat) (fuel pos bytesRead nodes : Nat) (acc : DegAcc) (expected : Nat),
      f.drop pos = recsBytes recs →
      (∀ r ∈ recs, r.length < 2 ^ 32) →
      bytesRead + recsSize recs < expected →
      expected < U64_MOD →
      recs.length < fuel →
      scanGo f expected fuel pos bytesRead nodes acc =
        (nodes + recs.length, recs.foldl (fun a r => a.step r.length 2) acc) := by
  induction recs with
  | nil =>
    intro f fuel pos bytesRead nodes acc expected hdrop hdeg hsz hU hfuel
    obtain ⟨m, rfl⟩ : ∃ m, fuel = m + 1 := ⟨fuel - 1, by omega⟩
    have hne : bytesRead ≠ expected := by
      simp only [recsSize, List.map_nil, List.sum_nil, Nat.add_zero] at hsz
      omega
    have hnil : (f.drop pos).length = 0 := by rw [hdrop]; rfl
    have hpos : ¬(pos + 4 ≤ f.length) := by
      rw [List.length_drop] at hnil
      omega
    simp [scanGo, hne, hpos]
  | cons r rest ih =>
    intro f fuel pos bytesRead nodes acc expected hdrop hdeg hsz hU hfuel
    obtain ⟨m, rfl⟩ : ∃ m, fuel = m + 1 := ⟨fuel - 1, by omega⟩
    rw [recsSize_cons] at hsz
    have h4 : (encodeU32 r.length).length = 4 := by simp [encodeU32, encodeLE_length]
    have hdrop' : f.drop pos
        = encodeU32 r.length ++ ((r.map encodeU32).flatten ++ recsBytes rest) := by
      rw [hdrop, recsBytes_cons, encodeRecord, List.append_assoc]
    have hlen : (f.drop pos).length = f.length - pos := List.length_drop pos f
    have hlen' := congrArg List.length hdrop'
    rw [List.length_append, List.length_append, flatten_encodeU32_length, h4] at hlen'
    have hpos : pos + 4 ≤ f.length := by
      by_cases hp : pos ≤ f.length
      · omega
      · exfalso
        rw [List.drop_eq_nil_of_le (by omega)] at hdrop'
        have hcontra := congrArg List.length hdrop'
        rw [List.length_nil, List.length_append, List.length_append,
          flatten_encodeU32_length, h4] at hcontra
        omega
    have htake : (f.drop pos).take 4 = encodeU32 r.length := by
      rw [hdrop']
      exact List.take_left' h4
    have hk : leVal ((f.drop pos).take 4) = r.length := by
      rw [htake, encodeU32, leVal_encodeLE]
      have hb : r.length < 256 ^ 4 := by
        have := hdeg r (List.mem_cons_self r rest)
        norm_num
        omega
      exact Nat.mod_eq_of_lt hb
    have hne : bytesRead ≠ expected := by omega
    rw [scanGo, if_neg hne, if_pos hpos, hk]
    have hmod : (bytesRead + 4 + 4 * r.length) % U64_MOD = bytesRead + 4 + 4 * r.length :=
      Nat.mod_eq_of_lt (by omega)
    rw [hmod]
    have hdropnext : f.drop (pos + 4 + 4 * r.length) = recsBytes rest := by
      have hds := drop_shift f pos (4 + 4 * r.length) (encodeRecord r) (recsBytes rest)
        (encodeRecord_length r)
        (by rw [hdrop, recsBytes_cons])
      rw [show pos + 4 + 4 * r.length = pos + (4 + 4 * r.length) by omega]
      exact hds
    rw [ih f m (pos + 4 + 4 * r.length) (bytesRead + 4 + 4 * r.length) (nodes + 1)
      (acc.step r.length 2) expected hdropnext
      (fun x hx => hdeg x (List.mem_cons_of_mem _ hx)) (by omega) hU (by simpa using hfuel)]
    rw [List.foldl_cons]
    congr 1
    simp only [List.length_cons]
    omega

lemma scanGo_fuel_add (k : Nat) :
    ∀ (fuel : Nat) (f : List Nat) (expected pos bytesRead nodes : Nat) (acc : DegAcc),
      (f.length - pos) / 4 < fuel →
      scanGo f expected (fuel + k) pos bytesRead nodes acc
        = scanGo f expected fuel pos bytesRead nodes acc := by
  intro fuel
  induction fuel with
  | zero => intro f e pos b n a h; exact absurd h (by omega)
  | succ m ih =>
    intro f e pos b n a h
    rw [show m + 1 + k = (m + k) + 1 by omega]
    rw [scanGo, scanGo]
    by_cases h1 : b = e
    · rw [if_pos h1, if_pos h1]
    · rw [if_neg h1, if_neg h1]
      by_cases h2 : pos + 4 ≤ f.length
      · rw [if_pos h2, if_pos h2]
        apply ih
        generalize leVal ((f.drop pos).take 4) = K
        omega
      · rw [if_neg h2, if_neg h2]

/-- C10: the layout-A/B scan loop of `compute_graph_stats_from_file`
terminates on every finite byte stream and every header value: its result
is already reached within `(f.length - pos)/4 + 1` iterations — each
iteration either consumes at least 4 bytes of the stream (one `u32` read
plus a forward seek) or fails the read and exits — so any two fuel bounds
above that iteration count give the same result, regardless of whether
`bytes_read` ever equals `expected_file_size` (the loop's equality test
may be jumped over when a degree field pushes `bytes_read` strictly past
it). -/
theorem c10_scan_loop_terminates (f : List Nat) (expected pos bytesRead nodes : Nat)
    (acc : DegAcc) (fuel₁ fuel₂ : Nat)
    (h₁ : (f.length - pos) / 4 < fuel₁) (h₂ : (f.length - pos) / 4 < fuel₂) :
    scanGo f expected fuel₁ pos bytesRead nodes acc
      = scanGo f expected fuel₂ pos bytesRead nodes acc := by
  have hb1 : scanGo f expected fuel₁ pos bytesRead nodes acc
      = scanGo f expected ((f.length - pos) / 4 + 1) pos bytesRead nodes acc := by
    rw [show fuel₁ = ((f.length - pos) / 4 + 1) + (fuel₁ - ((f.length - pos) / 4 + 1)) by omega]
    exact scanGo_fuel_add _ _ f expected pos bytesRead nodes acc (by omega)
  have hb2 : scanGo f expected fuel₂ pos bytesRead nodes acc
      = scanGo f expected ((f.length - pos) / 4 + 1) pos bytesRead nodes acc := by
    rw [show fuel₂ = ((f.length - pos) / 4 + 1) + (fuel₂ - ((f.length - pos) / 4 + 1)) by omega]
    exact scanGo_fuel_add _ _ f expected pos bytesRead nodes acc (by omega)
  rw [hb1, hb2]

/-- Witness for C10 at a concrete 4-byte stream and a header value the
byte counter jumps past. -/
theorem c10_witness :
    scanGo [9, 0, 0, 0] 30 2 0 24 0 DegAcc.init = scanGo [9, 0, 0, 0] 30 7 0 24 0 DegAcc.init :=
  c10_scan_loop_terminates [9, 0, 0, 0] 30 0 24 0 DegAcc.init 2 7 (by decide) (by decide)

lemma statsOfDegs_eq_foldl (recs : List (List Nat)) (wthr : Nat) :
    statsOfDegs (recs.map List.length) wthr
      = recs.foldl (fun a r => a.step r.length wthr) DegAcc.init := by
  rw [statsOfDegs, List.foldl_map]

lemma sum_degs_le_recsSize (recs : List (List Nat)) :
    4 * (recs.map List.length).sum ≤ recsSize recs := by
  induction recs with
  | nil => simp [recsSize]
  | cons r rest ih =>
    rw [recsSize_cons]
    simp only [List.map_cons, List.sum_cons]
    omega

lemma statsOfDegs_totalEdges_eq_sum (degs : List Nat) (wthr : Nat) (h : degs.sum < U64_MOD) :
    (statsOfDegs degs wthr).totalEdges = degs.sum := by
  rw [statsOfDegs, foldl_step_totalEdges _ _ _ (by simp [DegAcc.init, U64_MOD])]
  simp only [DegAcc.init, Nat.zero_add]
  exact Nat.mod_eq_of_lt h

lemma encodeGraphFile_length (width ep frozen : Nat) (recs : List (List Nat)) :
    (encodeGraphFile width ep frozen recs).length = 24 + recsSize recs := by
  rw [encodeGraphFile, List.length_append, hdrBytes_length, recsBytes_length]

/-- C1: scanning a well-formed layout-A file with header
`(24 + Σ(4+4*deg_i), width, ep, frozen)` and N complete records reproduces
`total_nodes = N`, `total_edges = Σ deg_i`, `entry_point = ep`,
`frozen_nodes = frozen`, with the degree statistics aggregated over
exactly those records; and the same file truncated to its first `k < N`
complete records yields `total_nodes = k` with `degree_min`, `degree_max`,
`degree_avg` and `weak_count` computed over exactly those `k` records. -/
theorem c1_layoutA_roundtrip_and_trunc (width ep frozen : Nat) (recs : List (List Nat))
    (hep : ep < 2 ^ 32) (hfr : frozen < 2 ^ 64)
    (hdeg : ∀ r ∈ recs, r.length < 2 ^ 32)
    (hsz : 24 + recsSize recs < 2 ^ 64) :
    (compute_graph_stats_from_file (some (encodeGraphFile width ep frozen recs)) 0 =
      { total_nodes := recs.length
        active_nodes := if frozen ≤ recs.length then recs.length - frozen else 0
        frozen_nodes := frozen
        total_edges := (recs.map List.length).sum
        degree_min := degMinOut (statsOfDegs (recs.map List.length) 2)
        degree_avg := avgOut (statsOfDegs (recs.map List.length) 2) recs.length
        degree_max := (statsOfDegs (recs.map List.length) 2).degMax
        weak_count := (statsOfDegs (recs.map List.length) 2).weakCount
        entry_point := ep })
    ∧ (∀ k, k < recs.length →
      compute_graph_stats_from_file
          (some ((encodeGraphFile width ep frozen recs).take (24 + recsSize (recs.take k)))) 0
        = { total_nodes := k
            active_nodes := if frozen ≤ k then k - frozen else 0
            frozen_nodes := frozen
            total_edges := ((recs.take k).map List.length).sum
            degree_min := degMinOut (statsOfDegs ((recs.take k).map List.length) 2)
            degree_avg := avgOut (statsOfDegs ((recs.take k).map List.length) 2) k
            degree_max := (statsOfDegs ((recs.take k).map List.length) 2).degMax
            weak_count := (statsOfDegs ((recs.take k).map List.length) 2).weakCount
            entry_point := ep }) := by
  have hU : U64_MOD = 2 ^ 64 := rfl
  constructor
  · have hr0 := readLE_hdr_expected (24 + recsSize recs) width ep frozen (recsBytes recs)
    have hr8 := readLE_hdr_width (24 + recsSize recs) width ep frozen (recsBytes recs)
    have hr12 := readLE_hdr_ep (24 + recsSize recs) width ep frozen (recsBytes recs)
    have hr16 := readLE_hdr_frozen (24 + recsSize recs) width ep frozen (recsBytes recs)
    rw [Nat.mod_eq_of_lt hsz] at hr0
    rw [Nat.mod_eq_of_lt hep] at hr12
    rw [Nat.mod_eq_of_lt hfr] at hr16
    rw [← encodeGraphFile] at hr0 hr8 hr12 hr16
    simp only [compute_graph_stats_from_file, Nat.zero_add, hr0, hr8, hr12, hr16]
    have hscan := scanGo_records_full recs (encodeGraphFile width ep frozen recs) []
      ((encodeGraphFile width ep frozen recs).length + 1) 24 24 0 DegAcc.init
      (24 + recsSize recs)
      (by rw [encodeGraphFile, drop24_hdr, List.append_nil])
      hdeg rfl (by rw [hU]; exact hsz)
      (by
        rw [encodeGraphFile_length]
        have := length_le_recsSize recs
        omega)
    rw [hscan, ← statsOfDegs_eq_foldl]
    have hE : (statsOfDegs (recs.map List.length) 2).totalEdges = (recs.map List.length).sum := by
      rw [statsOfDegs_totalEdges_eq_sum]
      rw [hU]
      have := sum_degs_le_recsSize recs
      omega
    simp [renderScan, hE]
  · intro k hk
    have hsplit : recs = recs.take k ++ recs.drop k := (List.take_append_drop k recs).symm
    have hB : recsBytes recs = recsBytes (recs.take k) ++ recsBytes (recs.drop k) := by
      conv_lhs => rw [hsplit]
      rw [recsBytes_append]
    have hS : recsSize recs = recsSize (recs.take k) + recsSize (recs.drop k) := by
      conv_lhs => rw [hsplit]
      rw [recsSize_append]
    have hdropne : recs.drop k ≠ [] := by
      intro hnil
      rw [List.drop_eq_nil_iff] at hnil
      omega
    have hSpos : 4 ≤ recsSize (recs.drop k) := by
      match hd : recs.drop k, hdropne with
      | r :: rest, _ => exact recsSize_pos r rest
    have hT : (encodeGraphFile width ep frozen recs).take (24 + recsSize (recs.take k))
        = hdrBytes (24 + recsSize recs) width ep frozen ++ recsBytes (recs.take k) := by
      rw [encodeGraphFile, hB, ← List.append_assoc]
      rw [show 24 + recsSize (recs.take k)
          = (hdrBytes (24 + recsSize recs) width ep frozen ++ recsBytes (recs.take k)).length by
        rw [List.length_append, hdrBytes_length, recsBytes_length]]
      exact List.take_left _ _
    rw [hT]
    have hr0 := readLE_hdr_expected (24 + recsSize recs) width ep frozen (recsBytes (recs.take k))
    have hr8 := readLE_hdr_width (24 + recsSize recs) width ep frozen (recsBytes (recs.take k))
    have hr12 := readLE_hdr_ep (24 + recsSize recs) width ep frozen (recsBytes (recs.take k))
    have hr16 := readLE_hdr_frozen (24 + recsSize recs) width ep frozen (recsBytes (recs.take k))
    rw [Nat.mod_eq_of_lt hsz] at hr0
    rw [Nat.mod_eq_of_lt hep] at hr12
    rw [Nat.mod_eq_of_lt hfr] at hr16
    simp only [compute_graph_stats_from_file, Nat.zero_add, hr0, hr8, hr12, hr16]
    have hklen : (recs.take k).length = k := by
      rw [List.length_take]
      omega
    have hscan := scanGo_records_trunc (recs.take k)
      (hdrBytes (24 + recsSize recs) width ep frozen ++ recsBytes (recs.take k))
      ((hdrBytes (24 + recsSize recs) width ep frozen ++ recsBytes (recs.take k)).length + 1)
      24 24 0 DegAcc.init (24 + recsSize recs)
      (drop24_hdr _ _ _ _ _)
      (fun r hr => hdeg r (List.take_subset k recs hr))
      (by omega)
      (by rw [hU]; exact hsz)
      (by
        rw [List.length_append, hdrBytes_length, recsBytes_length]
        have := length_le_recsSize (recs.take k)
        omega)
    rw [hscan, ← statsOfDegs_eq_foldl]
    have hE : (statsOfDegs ((List.map List.length recs).take k) 2).totalEdges
        = ((List.map List.length recs).take k).sum := by
      rw [statsOfDegs_totalEdges_eq_sum]
      rw [hU]
      have h1 := sum_degs_le_recsSize (recs.take k)
      rw [List.map_take] at h1
      omega
    simp [renderScan, hE, hklen]

/-- Witness for C1 at a concrete three-record file (degrees 2, 0, 1),
truncated to its first record in the second conjunct. -/
theorem c1_witness :
    compute_graph_stats_from_file (some (encodeGraphFile 3 7 1 [[1, 5], [], [0]])) 0 =
      { total_nodes := 3
        active_nodes := 2
        frozen_nodes := 1
        total_edges := 3
        degree_min := degMinOut (statsOfDegs [2, 0, 1] 2)
        degree_avg := avgOut (statsOfDegs [2, 0, 1] 2) 3
        degree_max := (statsOfDegs [2, 0, 1] 2).degMax
        weak_count := (statsOfDegs [2, 0, 1] 2).weakCount
        entry_point := 7 } ∧
    compute_graph_stats_from_file
        (some ((encodeGraphFile 3 7 1 [[1, 5], [], [0]]).take 36)) 0 =
      { total_nodes := 1
        active_nodes := 0
        frozen_nodes := 1
        total_edges := 2
        degree_min := degMinOut (statsOfDegs [2] 2)
        degree_avg := avgOut (statsOfDegs [2] 2) 1
        degree_max := (statsOfDegs [2] 2).degMax
        weak_count := (statsOfDegs [2] 2).weakCount
        entry_point := 7 } := by
  have h := c1_layoutA_roundtrip_and_trunc 3 7 1 [[1, 5], [], [0]]
    (by norm_num) (by norm_num) (by decide) (by decide)
  refine ⟨?_, ?_⟩
  · have h1 := h.1
    simpa using h1
  · have h2 := h.2 1 (by norm_num)
    simpa using h2

/-- C2 counterexample: `compute_graph_stats` on an empty graph with
`nd = num_frozen_pts = 0` and caller-supplied `ep = 7` returns
`total_nodes = 0` but `entry_point = 7 ≠ 0`, contradicting the claim that
every zero-`total_nodes` result has a zero entry point. -/
theorem c2_counterexample :
    (compute_graph_stats [] 0 0 7 2).total_nodes = 0 ∧
      (compute_graph_stats [] 0 0 7 2).entry_point = 7 := by
  constructor <;> rfl

/-- C2 (amended): when the node count is zero, every numeric field of the
result is zero except that `compute_graph_stats` keeps the caller-supplied
`ep` as `entry_point` (it is stored before the `total_nodes == 0` early
return); `compute_graph_stats_from_file` on an absent file, or on a file
whose 24-byte header cannot be fully read (including the empty file),
returns the all-zero `GraphStats`, entry point included. -/
theorem c2_amended :
    (∀ (graph : List (List Nat)) (ep w : Nat),
        compute_graph_stats graph 0 0 ep w = { entry_point := ep }) ∧
    (∀ offset : Nat, compute_graph_stats_from_file none offset = {}) ∧
    (∀ (f : List Nat) (offset : Nat), f.length < offset + 24 →
        compute_graph_stats_from_file (some f) offset = {}) := by
  refine ⟨fun graph ep w => rfl, fun offset => rfl, fun f offset h => ?_⟩
  have h16 : readLE f (offset + 16) 8 = none := by
    rw [readLE_eq _ _ _ (by norm_num), if_neg (by omega)]
  rcases h0 : readLE f offset 8 with _ | v0 <;>
    rcases h8 : readLE f (offset + 8) 4 with _ | v8 <;>
      rcases h12 : readLE f (offset + 12) 4 with _ | v12 <;>
        simp only [compute_graph_stats_from_file, h0, h8, h12, h16]

/-- Witness for C2 (amended) at a concrete empty file and offset. -/
theorem c2_amended_witness : compute_graph_stats_from_file (some []) 0 = {} :=
  c2_amended.2.2 [] 0 (by decide)

/-- C3 counterexample: a layout-C file whose geometry passes the sanity
check and has `records_per_page = 0` resolves to the untagged variant
with `n_nodes = 3`, yet the returned stats have `total_nodes = 3`, not
`0`: `s.total_nodes = disk_nnodes` is assigned before the
`nnodes_per_sector == 0` branch returns. -/
theorem c3_counterexample :
    resolveDiskHeader c3File = HeaderResolution.untagged ⟨3, 1, 0, 8, 0⟩ ∧
      (compute_graph_stats_from_disk_index (some c3File) DiskIndexDataType.kFloat).total_nodes
        = 3 := by
  constructor <;> decide

/-- C3 (amended): on a resolved layout-C geometry that passes the sanity
check and has `records_per_page == 0`, the reader returns zero edge
statistics (`total_edges`, `degree_min`, `degree_avg`, `degree_max`,
`weak_count` all zero) without touching the body, but keeps the header's
metadata: `total_nodes = active_nodes = n_nodes`, `frozen_nodes = 0` and
`entry_point = medoid mod 2^32`. -/
theorem c3_amended (f : List Nat) (dt : DiskIndexDataType) (g : DiskGeometry)
    (hres : resolveDiskHeader f = .tagged g ∨ resolveDiskHeader f = .untagged g)
    (hrpp : g.nnodes_per_sector = 0)
    (hsane : ¬(g.max_node_len < (g.disk_ndims * elem_size dt % U64_MOD + 4) % U64_MOD
      ∨ kSectorLen < g.max_node_len)) :
    compute_graph_stats_from_disk_index (some f) dt =
      { total_nodes := g.disk_nnodes, active_nodes := g.disk_nnodes, frozen_nodes := 0,
        total_edges := 0, degree_min := 0, degree_avg := 0, degree_max := 0, weak_count := 0,
        entry_point := g.medoid_id % 2 ^ 32 } := by
  rcases hres with h | h <;>
    simp only [compute_graph_stats_from_disk_index, h, diskStatsFromGeo, if_neg hsane,
      if_pos hrpp]

/-- Witness for C3 (amended) at the concrete oversized-record file. -/
theorem c3_amended_witness :
    compute_graph_stats_from_disk_index (some c3File) DiskIndexDataType.kFloat =
      { total_nodes := 3, active_nodes := 3, frozen_nodes := 0, total_edges := 0,
        degree_min := 0, degree_avg := 0, degree_max := 0, weak_count := 0,
        entry_point := 0 } := by
  have h := c3_amended c3File DiskIndexDataType.kFloat ⟨3, 1, 0, 8, 0⟩
    (Or.inr (by decide)) rfl (by decide)
  simpa using h

/-- C4 counterexample: a layout-A file whose header declares one frozen
point but whose body holds no records gives `total_nodes = 0`,
`frozen_nodes = 1`, `active_nodes = 0` — so `active_nodes + frozen_nodes
= 1 ≠ 0 = total_nodes`, refuting the invariant for truncated files with
fewer records than the frozen count. -/
theorem c4_counterexample :
    (compute_graph_stats_from_file (some (hdrBytes 24 0 0 1)) 0).active_nodes
        + (compute_graph_stats_from_file (some (hdrBytes 24 0 0 1)) 0).frozen_nodes = 1 ∧
      (compute_graph_stats_from_file (some (hdrBytes 24 0 0 1)) 0).total_nodes = 0 := by
  constructor <;> decide

/-- C4 (amended): `active_nodes + frozen_nodes = total_nodes` holds
unconditionally for `compute_graph_stats` and
`compute_graph_stats_from_disk_index`; for
`compute_graph_stats_from_file` it holds exactly when at least
`frozen_nodes` records were read (`frozen_nodes ≤ total_nodes`) — when a
truncated file yields fewer records than the header's frozen count,
`active_nodes` is clamped to 0 and the sum exceeds `total_nodes`. -/
theorem c4_active_plus_frozen :
    (∀ (graph : List (List Nat)) (nd npf ep w : Nat),
      (compute_graph_stats graph nd npf ep w).active_nodes
          + (compute_graph_stats graph nd npf ep w).frozen_nodes
        = (compute_graph_stats graph nd npf ep w).total_nodes) ∧
    (∀ (file : Option (List Nat)) (dt : DiskIndexDataType),
      (compute_graph_stats_from_disk_index file dt).active_nodes
          + (compute_graph_stats_from_disk_index file dt).frozen_nodes
        = (compute_graph_stats_from_disk_index file dt).total_nodes) ∧
    (∀ (file : Option (List Nat)) (offset : Nat),
      (compute_graph_stats_from_file file offset).frozen_nodes
          ≤ (compute_graph_stats_from_file file offset).total_nodes →
      (compute_graph_stats_from_file file offset).active_nodes
          + (compute_graph_stats_from_file file offset).frozen_nodes
        = (compute_graph_stats_from_file file offset).total_nodes) := by
  have hgeo : ∀ (f : List Nat) (dt : DiskIndexDataType) (g : DiskGeometry),
      (diskStatsFromGeo f dt g).active_nodes + (diskStatsFromGeo f dt g).frozen_nodes
        = (diskStatsFromGeo f dt g).total_nodes := by
    intro f dt g
    rw [diskStatsFromGeo]
    split
    · rfl
    · split
      · simp
      · rw [renderDisk]
        simp
  refine ⟨?_, ?_, ?_⟩
  · intro graph nd npf ep w
    rw [compute_graph_stats]
    split <;> rfl
  · intro file dt
    match file with
    | none => rfl
    | some f =>
      rcases hres : resolveDiskHeader f with g | g | _ <;>
        simp only [compute_graph_stats_from_disk_index, hres]
      · exact hgeo f dt g
      · exact hgeo f dt g
  · intro file offset
    match file with
    | none => intro _; rfl
    | some f =>
      rcases h0 : readLE f offset 8 with _ | v0 <;>
        rcases h8 : readLE f (offset + 8) 4 with _ | v8 <;>
          rcases h12 : readLE f (offset + 12) 4 with _ | v12 <;>
            rcases h16 : readLE f (offset + 16) 8 with _ | v16 <;>
              simp only [compute_graph_stats_from_file, h0, h8, h12, h16, renderScan] <;>
                intro h <;>
                first
                  | trivial
                  | (rw [if_pos h]; omega)

/-- Witness for C4 (amended) applied to a concrete header-only file with
zero frozen points. -/
theorem c4_witness :
    (compute_graph_stats_from_file (some (hdrBytes 24 5 9 0)) 0).active_nodes
        + (compute_graph_stats_from_file (some (hdrBytes 24 5 9 0)) 0).frozen_nodes
      = (compute_graph_stats_from_file (some (hdrBytes 24 5 9 0)) 0).total_nodes :=
  c4_active_plus_frozen.2.2 (some (hdrBytes 24 5 9 0)) 0 (by decide)

lemma readGeo_some (f : List Nat) (pos : Nat) (h : pos + 40 ≤ f.length) :
    readGeo f pos = some (mkGeoAt f pos) := by
  rw [readGeo, readLE_eq f pos 8 (by norm_num), readLE_eq f (pos + 8) 8 (by norm_num),
    readLE_eq f (pos + 16) 8 (by norm_num), readLE_eq f (pos + 24) 8 (by norm_num),
    readLE_eq f (pos + 32) 8 (by norm_num),
    if_pos (show pos + 8 ≤ f.length by omega), if_pos (show pos + 8 + 8 ≤ f.length by omega),
    if_pos (show pos + 16 + 8 ≤ f.length by omega),
    if_pos (show pos + 24 + 8 ≤ f.length by omega),
    if_pos (show pos + 32 + 8 ≤ f.length by omega)]
  rfl

lemma readGeo_none (f : List Nat) (pos : Nat) (h : f.length < pos + 40) :
    readGeo f pos = none := by
  have h5 : readLE f (pos + 32) 8 = none := by
    rw [readLE_eq _ _ _ (by norm_num), if_neg (by omega)]
  rcases h1 : readLE f pos 8 with _ | a <;>
    rcases h2 : readLE f (pos + 8) 8 with _ | b <;>
      rcases h3 : readLE f (pos + 16) 8 with _ | c <;>
        rcases h4 : readLE f (pos + 24) 8 with _ | d <;>
          simp only [readGeo, h1, h2, h3, h4, h5]

/-- C6: the layout-C header resolver commits to the tagged interpretation
C1 — geometry read immediately after the 8-byte tag, body at 4096 — if
and only if the first 4 bytes read successfully as a signed 32-bit value
`>= 5` and the subsequent (second tag) read succeeds; otherwise it
rewinds and reads the same 5-u64 geometry at offset 0 (C2).  In either
branch a short geometry read yields the header-unreadable outcome, never
a layout inferred from partial success, and an unreadable header makes
`compute_graph_stats_from_disk_index` return the all-zero stats. -/
theorem c6_header_resolver (f : List Nat) (dt : DiskIndexDataType) :
    ((8 ≤ f.length ∧ 5 ≤ toInt32 (leVal (f.take 4))) →
      resolveDiskHeader f
        = if 48 ≤ f.length then .tagged (mkGeoAt f 8) else .unreadable) ∧
    (¬(8 ≤ f.length ∧ 5 ≤ toInt32 (leVal (f.take 4))) →
      resolveDiskHeader f
        = if 40 ≤ f.length then .untagged (mkGeoAt f 0) else .unreadable) ∧
    (resolveDiskHeader f = .unreadable →
      compute_graph_stats_from_disk_index (some f) dt = {}) := by
  refine ⟨?_, ?_, ?_⟩
  · rintro ⟨hlen, htag⟩
    have h04 : readLE f 0 4 = some (leVal (f.take 4)) := by
      rw [readLE_eq _ _ _ (by norm_num), if_pos (by omega), List.drop_zero]
    have h44 : readLE f 4 4 = some (leVal ((f.drop 4).take 4)) := by
      rw [readLE_eq _ _ _ (by norm_num), if_pos (by omega)]
    by_cases h48 : 48 ≤ f.length
    · simp only [resolveDiskHeader, h04, h44, if_pos htag, readGeo_some f 8 (by omega),
        if_pos h48]
    · simp only [resolveDiskHeader, h04, h44, if_pos htag, readGeo_none f 8 (by omega),
        if_neg h48]
  · intro hn
    by_cases hlen : 8 ≤ f.length
    · have htag : ¬5 ≤ toInt32 (leVal (f.take 4)) := fun ht => hn ⟨hlen, ht⟩
      have h04 : readLE f 0 4 = some (leVal (f.take 4)) := by
        rw [readLE_eq _ _ _ (by norm_num), if_pos (by omega), List.drop_zero]
      have h44 : readLE f 4 4 = some (leVal ((f.drop 4).take 4)) := by
        rw [readLE_eq _ _ _ (by norm_num), if_pos (by omega)]
      by_cases h40 : 40 ≤ f.length
      · simp only [resolveDiskHeader, h04, h44, if_neg htag, readGeo_some f 0 (by omega),
          if_pos h40]
      · simp only [resolveDiskHeader, h04, h44, if_neg htag, readGeo_none f 0 (by omega),
          if_neg h40]
    · have h40 : ¬40 ≤ f.length := by omega
      have hg0 : readGeo f 0 = none := readGeo_none f 0 (by omega)
      rcases h04 : readLE f 0 4 with _ | a <;>
        rcases h44 : readLE f 4 4 with _ | b <;>
          simp only [resolveDiskHeader, h04, h44, hg0, if_neg h40]
      have hb : 4 + 4 ≤ f.length := by
        by_contra hc
        rw [readLE_eq _ _ _ (by norm_num), if_neg (by omega)] at h44
        exact Option.noConfusion h44
      omega
  · intro hres
    simp only [compute_graph_stats_from_disk_index, hres]

/-- Witness for C6 at the empty file: no tag, no geometry, all-zero
stats. -/
theorem c6_witness :
    compute_graph_stats_from_disk_index (some []) DiskIndexDataType.kFloat = {} := by
  have h2 := (c6_header_resolver ([] : List Nat) DiskIndexDataType.kFloat).2.1 (by decide)
  rw [if_neg (by decide)] at h2
  exact (c6_header_resolver ([] : List Nat) DiskIndexDataType.kFloat).2.2 h2

lemma length_mul_le_sum (l : List Nat) (m : Nat) (h : ∀ d ∈ l, m ≤ d) :
    l.length * m ≤ l.sum := by
  induction l with
  | nil => simp
  | cons d rest ih =>
    simp only [List.length_cons, List.sum_cons]
    have h1 := h d (List.mem_cons_self d rest)
    have h2 := ih fun x hx => h x (List.mem_cons_of_mem _ hx)
    rw [Nat.succ_mul]
    omega

lemma sum_le_length_mul (l : List Nat) (M : Nat) (h : ∀ d ∈ l, d ≤ M) :
    l.sum ≤ l.length * M := by
  induction l with
  | nil => simp
  | cons d rest ih =>
    simp only [List.length_cons, List.sum_cons]
    have h1 := h d (List.mem_cons_self d rest)
    have h2 := ih fun x hx => h x (List.mem_cons_of_mem _ hx)
    rw [Nat.succ_mul]
    omega

lemma statsOfDegs_min_spec (degs : List Nat) (wthr : Nat) (hne : degs ≠ [])
    (hbound : ∀ d ∈ degs, d < SIZE_MAX) :
    degMinOut (statsOfDegs degs wthr) ∈ degs
      ∧ ∀ d ∈ degs, degMinOut (statsOfDegs degs wthr) ≤ d := by
  obtain ⟨_, hle⟩ := foldl_step_degMin_le degs wthr DegAcc.init
  have hmem := foldl_step_degMin_mem degs wthr DegAcc.init
  obtain ⟨d0, hd0⟩ := List.exists_mem_of_ne_nil degs hne
  have hn : (degs.foldl (fun x d => x.step d wthr) DegAcc.init).degMin ≠ SIZE_MAX := by
    have h1 := hle d0 hd0
    have h2 := hbound d0 hd0
    omega
  have hout : degMinOut (statsOfDegs degs wthr)
      = (degs.foldl (fun x d => x.step d wthr) DegAcc.init).degMin := by
    rw [degMinOut, statsOfDegs, if_neg hn]
  rw [hout]
  rcases hmem with h | h
  · exact absurd h hn
  · exact ⟨h, hle⟩

lemma statsOfDegs_max_spec (degs : List Nat) (wthr : Nat) (hne : degs ≠ []) :
    (statsOfDegs degs wthr).degMax ∈ degs
      ∧ ∀ d ∈ degs, d ≤ (statsOfDegs degs wthr).degMax := by
  obtain ⟨_, hle⟩ := foldl_step_degMax_le degs wthr DegAcc.init
  have hmem := foldl_step_degMax_mem degs wthr DegAcc.init
  obtain ⟨d0, hd0⟩ := List.exists_mem_of_ne_nil degs hne
  rw [statsOfDegs]
  rcases hmem with h | h
  · have h1 := hle d0 hd0
    have hz : (degs.foldl (fun x d => x.step d wthr) DegAcc.init).degMax = 0 := by
      rw [h]
      rfl
    refine ⟨?_, hle⟩
    rw [hz]
    have hd0z : d0 = 0 := by omega
    rw [← hd0z]
    exact hd0
  · exact ⟨h, hle⟩

lemma degListOf_length (graph : List (List Nat)) (total : Nat) :
    (degListOf graph total).length = total := by
  simp [degListOf]

/-- C8: with at least `nd + num_frozen_pts` adjacency lists and a positive
node count, `compute_graph_stats` returns `total_edges` equal to the sum
of the first `nd + num_frozen_pts` list lengths, `degree_min`/`degree_max`
equal to the minimum/maximum of those lengths (both attained),
`degree_avg = total_edges / total_nodes` with `degree_min ≤ degree_avg ≤
degree_max`, and `weak_count` counting the lengths strictly below
`weak_threshold`.  The degree-sum bound `< SIZE_MAX` is forced in C++ by
`size_t` vector sizes. -/
theorem c8_in_memory_aggregates (graph : List (List Nat)) (nd npf ep wthr : Nat)
    (_hlen : nd + npf ≤ graph.length) (hpos : 0 < nd + npf)
    (hsum : (degListOf graph (nd + npf)).sum < SIZE_MAX) :
    (compute_graph_stats graph nd npf ep wthr).total_edges
        = (degListOf graph (nd + npf)).sum ∧
    ((compute_graph_stats graph nd npf ep wthr).degree_min ∈ degListOf graph (nd + npf) ∧
      ∀ d ∈ degListOf graph (nd + npf),
        (compute_graph_stats graph nd npf ep wthr).degree_min ≤ d) ∧
    ((compute_graph_stats graph nd npf ep wthr).degree_max ∈ degListOf graph (nd + npf) ∧
      ∀ d ∈ degListOf graph (nd + npf),
        d ≤ (compute_graph_stats graph nd npf ep wthr).degree_max) ∧
    (compute_graph_stats graph nd npf ep wthr).degree_avg
        = ((degListOf graph (nd + npf)).sum : ℚ) / ((nd + npf : Nat) : ℚ) ∧
    ((compute_graph_stats graph nd npf ep wthr).degree_min : ℚ)
        ≤ (compute_graph_stats graph nd npf ep wthr).degree_avg ∧
    (compute_graph_stats graph nd npf ep wthr).degree_avg
        ≤ ((compute_graph_stats graph nd npf ep wthr).degree_max : ℚ) ∧
    (compute_graph_stats graph nd npf ep wthr).weak_count
        = (degListOf graph (nd + npf)).countP (fun d => decide (d < wthr)) := by
  have hne : ¬(nd + npf = 0) := by omega
  have hlen_degs : (degListOf graph (nd + npf)).length = nd + npf :=
    degListOf_length graph (nd + npf)
  have hnil : degListOf graph (nd + npf) ≠ [] := by
    intro h
    rw [h] at hlen_degs
    simp at hlen_degs
    omega
  have hbound : ∀ d ∈ degListOf graph (nd + npf), d < SIZE_MAX := by
    intro d hd
    have hds : d ≤ (degListOf graph (nd + npf)).sum := List.le_sum_of_mem hd
    omega
  have hedges : (statsOfDegs (degListOf graph (nd + npf)) wthr).totalEdges
      = (degListOf graph (nd + npf)).sum := by
    apply statsOfDegs_totalEdges_eq_sum
    have : SIZE_MAX < U64_MOD := by norm_num [SIZE_MAX, U64_MOD]
    omega
  obtain ⟨hmin_mem, hmin_le⟩ := statsOfDegs_min_spec (degListOf graph (nd + npf)) wthr hnil hbound
  obtain ⟨hmax_mem, hmax_le⟩ := statsOfDegs_max_spec (degListOf graph (nd + npf)) wthr hnil
  have havg : avgOut (statsOfDegs (degListOf graph (nd + npf)) wthr) (nd + npf)
      = ((degListOf graph (nd + npf)).sum : ℚ) / ((nd + npf : Nat) : ℚ) := by
    rw [avgOut, if_pos hpos, hedges]
  have hposQ : (0 : ℚ) < ((nd + npf : Nat) : ℚ) := by
    exact_mod_cast hpos
  have hminavg : (degMinOut (statsOfDegs (degListOf graph (nd + npf)) wthr) : ℚ)
      ≤ avgOut (statsOfDegs (degListOf graph (nd + npf)) wthr) (nd + npf) := by
    rw [havg, le_div_iff₀ hposQ]
    have h1 : (nd + npf) * degMinOut (statsOfDegs (degListOf graph (nd + npf)) wthr)
        ≤ (degListOf graph (nd + npf)).sum := by
      have := length_mul_le_sum (degListOf graph (nd + npf))
        (degMinOut (statsOfDegs (degListOf graph (nd + npf)) wthr)) hmin_le
      rw [hlen_degs] at this
      exact this
    calc (degMinOut (statsOfDegs (degListOf graph (nd + npf)) wthr) : ℚ) * ((nd + npf : Nat) : ℚ)
        = (((nd + npf) * degMinOut (statsOfDegs (degListOf graph (nd + npf)) wthr) : Nat) : ℚ) := by
          push_cast
          ring
      _ ≤ ((degListOf graph (nd + npf)).sum : ℚ) := by exact_mod_cast h1
  have hmaxavg : avgOut (statsOfDegs (degListOf graph (nd + npf)) wthr) (nd + npf)
      ≤ ((statsOfDegs (degListOf graph (nd + npf)) wthr).degMax : ℚ) := by
    rw [havg, div_le_iff₀ hposQ]
    have h1 : (degListOf graph (nd + npf)).sum
        ≤ (nd + npf) * (statsOfDegs (degListOf graph (nd + npf)) wthr).degMax := by
      have := sum_le_length_mul (degListOf graph (nd + npf))
        ((statsOfDegs (degListOf graph (nd + npf)) wthr).degMax) hmax_le
      rw [hlen_degs] at this
      exact this
    calc ((degListOf graph (nd + npf)).sum : ℚ)
        ≤ (((nd + npf) * (statsOfDegs (degListOf graph (nd + npf)) wthr).degMax : Nat) : ℚ) := by
          exact_mod_cast h1
      _ = ((statsOfDegs (degListOf graph (nd + npf)) wthr).degMax : ℚ)
            * ((nd + npf : Nat) : ℚ) := by
          push_cast
          ring
  have hweak : (statsOfDegs (degListOf graph (nd + npf)) wthr).weakCount
      = (degListOf graph (nd + npf)).countP (fun d => decide (d < wthr)) := by
    rw [statsOfDegs, foldl_step_weakCount]
    simp [DegAcc.init]
  simp only [compute_graph_stats, if_neg hne]
  exact ⟨hedges, ⟨hmin_mem, hmin_le⟩, ⟨hmax_mem, hmax_le⟩, havg, hminavg, hmaxavg, hweak⟩

/-- Witness for C8 at the spec's hand-built degree profile `[0,1,2,3,1]`
(threshold 2), whose weak count is 3. -/
theorem c8_witness :
    (compute_graph_stats [[], [0], [0, 1], [0, 1, 2], [0]] 5 0 0 2).weak_count = 3 ∧
      (compute_graph_stats [[], [0], [0, 1], [0, 1, 2], [0]] 5 0 0 2).total_edges
        = (degListOf [[], [0], [0, 1], [0, 1, 2], [0]] 5).sum := by
  have h := c8_in_memory_aggregates [[], [0], [0, 1], [0, 1, 2], [0]] 5 0 0 2
    (by decide) (by decide) (by decide)
  exact ⟨by decide, h.1⟩

/-- C9: `compute_graph_stats` reads exactly the adjacency entries at
indices `0 .. nd + num_frozen_pts - 1`: under the precondition that the
vector holds at least that many lists, every such access is in bounds
(the `none` branch of the embedded indexing is unreachable), and the
result depends on no other entry — two graphs agreeing on those indices
produce identical stats. -/
theorem c9_in_memory_access (graph graph' : List (List Nat)) (nd npf ep w : Nat) :
    (nd + npf ≤ graph.length →
      ∀ i ∈ List.range (nd + npf), (graph[i]?).isSome) ∧
    ((∀ i < nd + npf, (graph[i]?).getD [] = (graph'[i]?).getD []) →
      compute_graph_stats graph nd npf ep w = compute_graph_stats graph' nd npf ep w) := by
  constructor
  · intro hlen i hi
    rw [List.mem_range] at hi
    simp [List.getElem?_eq_getElem (by omega : i < graph.length)]
  · intro hagree
    have hdeg : degListOf graph (nd + npf) = degListOf graph' (nd + npf) := by
      rw [degListOf, degListOf]
      apply List.map_congr_left
      intro i hi
      rw [List.mem_range] at hi
      rw [hagree i hi]
    rw [compute_graph_stats, compute_graph_stats, hdeg]

/-- Witness for C9: two graphs that differ only beyond index
`nd + num_frozen_pts - 1` yield the same stats. -/
theorem c9_witness :
    compute_graph_stats [[1], [2]] 2 0 0 2 = compute_graph_stats [[1], [2], [99]] 2 0 0 2 :=
  (c9_in_memory_access [[1], [2]] [[1], [2], [99]] 2 0 0 2).2 (by decide)

/-! ### The layout-C paged scan visits each node id once (under slot fit) -/

lemma innerLoop_spec (f page : List Nat) (n rpp mrl dimB sec : Nat)
    (hpage : page = (f.drop (kDiskIndexDataOffset + sec * kSectorLen)).take kSectorLen)
    (hrpp : 1 ≤ rpp) (hdim4 : dimB + 4 ≤ mrl) (hfit : rpp * mrl ≤ kSectorLen)
    (hSB : sec * rpp + rpp ≤ U64_MOD) :
    ∀ (left j : Nat) (acc : DegAcc), j + left = rpp →
      innerLoop page n mrl dimB (sec * rpp) left j acc
        = List.foldl (fun a d => a.step d 2) acc
            ((List.range' (sec * rpp + j) (min left (n - (sec * rpp + j)))).map
              (degAt f rpp mrl dimB)) := by
  have hUval : U64_MOD = 18446744073709551616 := by norm_num [U64_MOD]
  have hks : kSectorLen = 4096 := rfl
  have hdo : kDiskIndexDataOffset = 4096 := rfl
  intro left
  induction left with
  | zero =>
    intro j acc hj
    simp [innerLoop]
  | succ left ih =>
    intro j acc hj
    have hjlt : j < rpp := by omega
    have hjm : j * mrl + mrl ≤ rpp * mrl := by
      have h1 : j + 1 ≤ rpp := by omega
      calc j * mrl + mrl = (j + 1) * mrl := (Nat.succ_mul j mrl).symm
        _ ≤ rpp * mrl := Nat.mul_le_mul_right mrl h1
    have hnode : (sec * rpp + j) % U64_MOD = sec * rpp + j := Nat.mod_eq_of_lt (by omega)
    have hmod1 : j * mrl % U64_MOD = j * mrl := Nat.mod_eq_of_lt (by omega)
    have hmod2 : (j * mrl + dimB + 4) % U64_MOD = j * mrl + dimB + 4 :=
      Nat.mod_eq_of_lt (by omega)
    have hmod3 : (j * mrl + dimB) % U64_MOD = j * mrl + dimB := Nat.mod_eq_of_lt (by omega)
    rw [innerLoop, hnode]
    by_cases hn : n ≤ sec * rpp + j
    · rw [if_pos hn]
      rw [show min (left + 1) (n - (sec * rpp + j)) = 0 by omega]
      simp
    · rw [if_neg hn, hmod1, hmod2, hmod3]
      rw [if_neg (show ¬kSectorLen < j * mrl + dimB + 4 by omega)]
      have hdiv : (sec * rpp + j) / rpp = sec := by
        rw [Nat.mul_comm sec rpp, Nat.mul_add_div (show 0 < rpp by omega),
          Nat.div_eq_of_lt hjlt, Nat.add_zero]
      have hmod4 : (sec * rpp + j) % rpp = j := by
        rw [Nat.mul_comm sec rpp, Nat.mul_add_mod, Nat.mod_eq_of_lt hjlt]
      have hposeq : kDiskIndexDataOffset + sec * kSectorLen + (j * mrl + dimB)
          = degFieldPos rpp mrl dimB (sec * rpp + j) := by
        rw [degFieldPos, hdiv, hmod4]
        ring
      have hread : leVal ((page.drop (j * mrl + dimB)).take 4)
          = degAt f rpp mrl dimB (sec * rpp + j) := by
        rw [hpage, List.drop_take, List.drop_drop, List.take_take,
          show min 4 (kSectorLen - (j * mrl + dimB)) = 4 by omega, hposeq, degAt]
      rw [hread]
      rw [ih (j + 1) (acc.step (degAt f rpp mrl dimB (sec * rpp + j)) 2) (by omega)]
      rw [show min (left + 1) (n - (sec * rpp + j))
          = min left (n - (sec * rpp + (j + 1))) + 1 by omega]
      rw [List.range'_succ]
      rw [List.map_cons, List.foldl_cons]
      rw [show sec * rpp + j + 1 = sec * rpp + (j + 1) by omega]

lemma sectorLoop_spec (f : List Nat) (n rpp mrl dimB nsec : Nat)
    (hrpp : 1 ≤ rpp) (hdim4 : dimB + 4 ≤ mrl) (hfit : rpp * mrl ≤ kSectorLen)
    (hwrap : n + rpp ≤ U64_MOD)
    (hnsec : nsec = (n + rpp - 1) / rpp)
    (hlen : kDiskIndexDataOffset + nsec * kSectorLen ≤ f.length) :
    ∀ (left sec : Nat) (acc : DegAcc), sec + left = nsec →
      sectorLoop f n rpp mrl dimB left sec acc
        = List.foldl (fun a d => a.step d 2) acc
            ((List.range' (sec * rpp) (n - sec * rpp)).map (degAt f rpp mrl dimB)) := by
  have hks : kSectorLen = 4096 := rfl
  have hdo : kDiskIndexDataOffset = 4096 := rfl
  have hdm := Nat.div_add_mod (n + rpp - 1) rpp
  have hr := Nat.mod_lt (n + rpp - 1) (show 0 < rpp by omega)
  have hcomm : rpp * ((n + rpp - 1) / rpp) = (n + rpp - 1) / rpp * rpp :=
    Nat.mul_comm rpp ((n + rpp - 1) / rpp)
  have hceil1 : n ≤ nsec * rpp := by rw [hnsec]; omega
  have hceil2 : nsec * rpp < n + rpp := by rw [hnsec]; omega
  intro left
  induction left with
  | zero =>
    intro sec acc h
    have hzero : n - sec * rpp = 0 := by
      have hs : sec = nsec := by omega
      rw [hs]
      omega
    simp [sectorLoop, hzero]
  | succ left ih =>
    intro sec acc h
    have hsec1 : sec + 1 ≤ nsec := by omega
    have hsr : sec * rpp + rpp ≤ nsec * rpp := by
      have h1 := Nat.mul_le_mul_right rpp hsec1
      rw [Nat.succ_mul] at h1
      exact h1
    have hread_ok : kDiskIndexDataOffset + sec * kSectorLen + kSectorLen ≤ f.length := by
      have h1 := Nat.mul_le_mul_right kSectorLen hsec1
      rw [Nat.succ_mul] at h1
      omega
    rw [sectorLoop, if_neg (show ¬(f.drop
        (kDiskIndexDataOffset + sec * kSectorLen + kSectorLen - 1)).isEmpty = true by
      rw [drop_isEmpty_iff]
      omega)]
    rw [show sec * rpp % U64_MOD = sec * rpp from Nat.mod_eq_of_lt (by omega)]
    rw [innerLoop_spec f _ n rpp mrl dimB sec rfl hrpp hdim4 hfit (by omega) rpp 0 acc
      (by omega)]
    rw [ih (sec + 1) _ (by omega)]
    rw [Nat.add_zero, Nat.succ_mul]
    rw [← List.foldl_append, ← List.map_append]
    have hcat : List.range' (sec * rpp) (min rpp (n - sec * rpp))
        ++ List.range' (sec * rpp + rpp) (n - (sec * rpp + rpp))
        = List.range' (sec * rpp) (n - sec * rpp) := by
      by_cases hcase : n ≤ sec * rpp + rpp
      · rw [show n - (sec * rpp + rpp) = 0 by omega,
          show min rpp (n - sec * rpp) = n - sec * rpp by omega]
        simp
      · rw [show min rpp (n - sec * rpp) = rpp by omega]
        have hr' := List.range'_append (sec * rpp) rpp (n - (sec * rpp + rpp)) 1
        rw [one_mul] at hr'
        rw [show n - (sec * rpp + rpp) + rpp = n - sec * rpp by omega] at hr'
        exact hr'
    rw [hcat]

lemma innerLoop_two (page : List Nat) (acc : DegAcc) :
    innerLoop page 2 4090 4 0 2 0 acc = acc.step (leVal ((page.drop 4).take 4)) 2 := rfl

set_option maxRecDepth 1000000 in
set_option maxHeartbeats 2000000 in
/-- C5 counterexample: `c5BadFile` satisfies every hypothesis the claim
states (`records_per_page = 2 ≥ 1`, `n_dims*esz + 4 = 8 ≤ max_record_len
= 4090 ≤ 4096`, its single body page reads successfully), yet the paged
reader aggregates only node id 0 (degree 7) and skips node id 1 — whose
degree field (value 5) lies past the page boundary — so `total_edges = 7`
instead of the per-id sum `7 + 5 = 12`. -/
theorem c5_counterexample :
    resolveDiskHeader c5BadFile = HeaderResolution.untagged ⟨2, 1, 0, 4090, 2⟩ ∧
    degAt c5BadFile 2 4090 4 0 = 7 ∧
    degAt c5BadFile 2 4090 4 1 = 5 ∧
    (compute_graph_stats_from_disk_index (some c5BadFile) DiskIndexDataType.kFloat).total_edges
        = 7 ∧
    (compute_graph_stats_from_disk_index (some c5BadFile) DiskIndexDataType.kFloat).total_edges
        ≠ degAt c5BadFile 2 4090 4 0 + degAt c5BadFile 2 4090 4 1 := by
  have hL : c5BadFile.length = 8194 := by
    simp only [c5BadFile, c5Geo, List.length_append, List.length_replicate, List.length_cons,
      List.length_nil, encodeU64, encodeU32, encodeLE_length]
  have h2 : degAt c5BadFile 2 4090 4 0 = 7 := by decide
  have h27 : leVal ((c5BadFile.drop 4100).take 4) = 7 := h2
  have hfront : (c5Geo ++ List.replicate 4056 0
      ++ ([0, 0, 0, 0] ++ (encodeU32 7 ++ List.replicate 4086 0))).length = 8190 := by
    simp only [c5Geo, List.length_append, List.length_replicate, List.length_cons,
      List.length_nil, encodeU64, encodeU32, encodeLE_length]
  have h3 : degAt c5BadFile 2 4090 4 1 = 5 := by
    rw [degAt, show degFieldPos 2 4090 4 1 = 8190 from rfl, c5BadFile,
      List.drop_left' hfront]
    decide
  have hne : ¬((c5BadFile.drop
      (kDiskIndexDataOffset + 0 * kSectorLen + kSectorLen - 1)).isEmpty = true) := by
    rw [drop_isEmpty_iff, hL]
    norm_num [kDiskIndexDataOffset, kSectorLen]
  have hsec : sectorLoop c5BadFile 2 2 4090 4 (0 + 1) 0 DegAcc.init
      = DegAcc.init.step (leVal ((c5BadFile.drop 4100).take 4)) 2 := by
    rw [sectorLoop, if_neg hne, sectorLoop,
      show kDiskIndexDataOffset + 0 * kSectorLen = 4096 from rfl,
      show (0 * 2 % U64_MOD : Nat) = 0 from rfl, innerLoop_two,
      List.drop_take, List.drop_drop, List.take_take]
    norm_num [kSectorLen]
  have hcgs : compute_graph_stats_from_disk_index (some c5BadFile) DiskIndexDataType.kFloat
      = renderDisk ⟨2, 1, 0, 4090, 2⟩
          (sectorLoop c5BadFile 2 2 4090 4 (0 + 1) 0 DegAcc.init) := rfl
  have h4 : (compute_graph_stats_from_disk_index (some c5BadFile)
      DiskIndexDataType.kFloat).total_edges = 7 := by
    rw [hcgs, hsec, h27]
    decide
  refine ⟨by decide, h2, h3, h4, ?_⟩
  rw [h4, h2, h3]
  decide

/-- C5 (amended): under the claim's geometry hypotheses strengthened by
the slot-fit condition `records_per_page * max_record_len ≤ 4096` (every
slot's degree field lies within its page — the condition the real
builder's `records_per_page = 4096 / max_record_len` guarantees), plus
no-wrap `n_nodes + records_per_page ≤ 2^64` and all
`ceil(n_nodes / records_per_page)` body pages present, the paged reader
aggregates the degree field of each node id `0 .. n_nodes-1` exactly
once — page `i / records_per_page`, slot `i % records_per_page` — and
returns exactly the stats of that degree list. -/
theorem c5_paged_reader_exactly_once (f : List Nat) (dt : DiskIndexDataType) (g : DiskGeometry)
    (hres : resolveDiskHeader f = .tagged g ∨ resolveDiskHeader f = .untagged g)
    (hrpp : 1 ≤ g.nnodes_per_sector)
    (hmrl_lo : g.disk_ndims * elem_size dt + 4 ≤ g.max_node_len)
    (hmrl_hi : g.max_node_len ≤ kSectorLen)
    (hfit : g.nnodes_per_sector * g.max_node_len ≤ kSectorLen)
    (hwrap : g.disk_nnodes + g.nnodes_per_sector ≤ U64_MOD)
    (hlen : kDiskIndexDataOffset
        + (g.disk_nnodes + g.nnodes_per_sector - 1) / g.nnodes_per_sector * kSectorLen
        ≤ f.length) :
    compute_graph_stats_from_disk_index (some f) dt
      = renderDisk g (statsOfDegs ((List.range g.disk_nnodes).map
          (degAt f g.nnodes_per_sector g.max_node_len (g.disk_ndims * elem_size dt))) 2) := by
  have hUval : U64_MOD = 18446744073709551616 := by norm_num [U64_MOD]
  have hks : kSectorLen = 4096 := rfl
  have hdimmod : g.disk_ndims * elem_size dt % U64_MOD = g.disk_ndims * elem_size dt :=
    Nat.mod_eq_of_lt (by omega)
  have hdimmod4 : (g.disk_ndims * elem_size dt + 4) % U64_MOD
      = g.disk_ndims * elem_size dt + 4 := Nat.mod_eq_of_lt (by omega)
  have hsane : ¬(g.max_node_len < (g.disk_ndims * elem_size dt % U64_MOD + 4) % U64_MOD
      ∨ kSectorLen < g.max_node_len) := by
    rw [hdimmod, hdimmod4]
    push_neg
    exact ⟨by omega, by omega⟩
  have hrpp0 : ¬g.nnodes_per_sector = 0 := by omega
  have hnum : (g.disk_nnodes + g.nnodes_per_sector - 1) % U64_MOD
      = g.disk_nnodes + g.nnodes_per_sector - 1 := Nat.mod_eq_of_lt (by omega)
  have hmain := sectorLoop_spec f g.disk_nnodes g.nnodes_per_sector g.max_node_len
    (g.disk_ndims * elem_size dt)
    ((g.disk_nnodes + g.nnodes_per_sector - 1) / g.nnodes_per_sector)
    hrpp hmrl_lo hfit hwrap rfl hlen
    ((g.disk_nnodes + g.nnodes_per_sector - 1) / g.nnodes_per_sector) 0 DegAcc.init
    (by omega)
  rw [Nat.zero_mul, Nat.sub_zero] at hmain
  rw [← List.range_eq_range'] at hmain
  have hfold : List.foldl (fun a d => a.step d 2) DegAcc.init
      ((List.range g.disk_nnodes).map
        (degAt f g.nnodes_per_sector g.max_node_len (g.disk_ndims * elem_size dt)))
      = statsOfDegs ((List.range g.disk_nnodes).map
          (degAt f g.nnodes_per_sector g.max_node_len (g.disk_ndims * elem_size dt))) 2 := rfl
  rcases hres with h | h <;>
    · simp only [compute_graph_stats_from_disk_index, h]
      rw [diskStatsFromGeo, if_neg hsane, if_neg hrpp0, hdimmod, hnum, hmain, hfold]

set_option maxRecDepth 1000000 in
set_option maxHeartbeats 2000000 in
/-- Witness for C5 (amended) at `c5GoodFile`: three nodes, two pages, the
final page half-populated. -/
theorem c5_witness :
    compute_graph_stats_from_disk_index (some c5GoodFile) DiskIndexDataType.kFloat
      = renderDisk ⟨3, 1, 1, 16, 2⟩
          (statsOfDegs ((List.range 3).map (degAt c5GoodFile 2 16 4)) 2) := by
  have hL : c5GoodFile.length = 12288 := by
    rw [c5GoodFile]
    simp only [List.length_append, List.length_replicate, List.length_cons, List.length_nil,
      encodeU64, encodeU32, encodeLE_length]
  have h := c5_paged_reader_exactly_once c5GoodFile DiskIndexDataType.kFloat ⟨3, 1, 1, 16, 2⟩
    (Or.inr (by decide)) (by decide) (by decide) (by decide) (by decide)
    (by norm_num [U64_MOD])
    (by rw [hL]; norm_num [kDiskIndexDataOffset, kSectorLen])
  simpa [elem_size] using h

/-! ### The small-graph samplers record exactly the within-sample reverse edges -/

lemma pushRev_length (nbrs : List Nat) (t : List (List Nat)) (L B : Nat) :
    (pushRev t L nbrs B).length = t.length := by
  induction nbrs generalizing t with
  | nil => rfl
  | cons x rest ih =>
    simp only [pushRev, List.foldl_cons]
    by_cases hx : x < B
    · rw [if_pos hx]
      have h := ih (t.set x (t.getD x [] ++ [L]))
      simp only [pushRev] at h
      rw [h, List.length_set]
    · rw [if_neg hx]
      have h := ih t
      simp only [pushRev] at h
      exact h

lemma pushRev_mem (nbrs : List Nat) (t : List (List Nat)) (L B : Nat)
    (ht : t.length = B) (v j : Nat) :
    j ∈ (pushRev t L nbrs B).getD v [] ↔ j ∈ t.getD v [] ∨ (j = L ∧ v < B ∧ v ∈ nbrs) := by
  induction nbrs generalizing t with
  | nil => simp [pushRev]
  | cons x rest ih =>
    simp only [pushRev, List.foldl_cons]
    by_cases hx : x < B
    · rw [if_pos hx]
      have ht' : (t.set x (t.getD x [] ++ [L])).length = B := by rw [List.length_set, ht]
      have h := ih (t.set x (t.getD x [] ++ [L])) ht'
      simp only [pushRev] at h
      rw [h]
      have hxlen : x < t.length := by omega
      have hset_eq : (t.set x (t.getD x [] ++ [L])).getD x [] = t.getD x [] ++ [L] := by
        rw [List.getD_eq_getElem?_getD, List.getElem?_set_self hxlen]
        rfl
      by_cases hv : v = x
      · rw [hv, hset_eq]
        constructor
        · rintro (hm | ⟨h1, h2, h3⟩)
          · rcases List.mem_append.mp hm with h4 | h4
            · exact Or.inl h4
            · exact Or.inr ⟨by simpa using h4, hx, List.mem_cons_self x rest⟩
          · exact Or.inr ⟨h1, h2, List.mem_cons_of_mem x h3⟩
        · rintro (h4 | ⟨h1, h2, h3⟩)
          · exact Or.inl (List.mem_append.mpr (Or.inl h4))
          · exact Or.inl (List.mem_append.mpr (Or.inr (by simp [h1])))
      · have hset_ne : (t.set x (t.getD x [] ++ [L])).getD v [] = t.getD v [] := by
          rw [List.getD_eq_getElem?_getD, List.getElem?_set_ne (Ne.symm hv),
            ← List.getD_eq_getElem?_getD]
        rw [hset_ne]
        constructor
        · rintro (h1 | ⟨h1, h2, h3⟩)
          · exact Or.inl h1
          · exact Or.inr ⟨h1, h2, List.mem_cons_of_mem x h3⟩
        · rintro (h1 | ⟨h1, h2, h3⟩)
          · exact Or.inl h1
          · rcases List.mem_cons.mp h3 with h4 | h4
            · exact absurd h4 hv
            · exact Or.inr ⟨h1, h2, h4⟩
    · rw [if_neg hx]
      have h := ih t ht
      simp only [pushRev] at h
      rw [h]
      constructor
      · rintro (h1 | ⟨h1, h2, h3⟩)
        · exact Or.inl h1
        · exact Or.inr ⟨h1, h2, List.mem_cons_of_mem x h3⟩
      · rintro (h1 | ⟨h1, h2, h3⟩)
        · exact Or.inl h1
        · rcases List.mem_cons.mp h3 with h4 | h4
          · omega
          · exact Or.inr ⟨h1, h2, h4⟩

lemma revStep_inv (outs ins : List (List Nat)) (nbrs : List Nat) (B : Nat)
    (hlen : ins.length = B) (hout : outs.length < B)
    (hmem : ∀ v j, j ∈ ins.getD v [] ↔ v < B ∧ j < outs.length ∧ v ∈ outs.getD j []) :
    (pushRev ins outs.length nbrs B).length = B ∧
    (outs ++ [nbrs]).length ≤ B ∧
    ∀ v j, j ∈ (pushRev ins outs.length nbrs B).getD v []
      ↔ v < B ∧ j < (outs ++ [nbrs]).length ∧ v ∈ (outs ++ [nbrs]).getD j [] := by
  refine ⟨by rw [pushRev_length, hlen],
    by simp only [List.length_append, List.length_cons, List.length_nil]; omega, ?_⟩
  intro v j
  rw [pushRev_mem nbrs ins outs.length B hlen, hmem]
  have happ : ∀ k, k < outs.length → (outs ++ [nbrs]).getD k [] = outs.getD k [] := by
    intro k hk
    rw [List.getD_eq_getElem?_getD, List.getElem?_append, if_pos hk,
      ← List.getD_eq_getElem?_getD]
  have happL : (outs ++ [nbrs]).getD outs.length [] = nbrs := by
    rw [List.getD_eq_getElem?_getD, List.getElem?_concat_length]
    rfl
  simp only [List.length_append, List.length_cons, List.length_nil]
  constructor
  · rintro (⟨hv, hj, hm⟩ | ⟨hj, hv, hn⟩)
    · exact ⟨hv, by omega, by rw [happ j hj]; exact hm⟩
    · subst hj
      exact ⟨hv, by omega, by rw [happL]; exact hn⟩
  · rintro ⟨hv, hj, hm⟩
    by_cases hjo : j < outs.length
    · exact Or.inl ⟨hv, hjo, by rw [← happ j hjo]; exact hm⟩
    · have hje : j = outs.length := by omega
      subst hje
      exact Or.inr ⟨rfl, hv, by rw [← happL]; exact hm⟩

lemma replicate_inv (B : Nat) (v j : Nat) :
    j ∈ (List.replicate B ([] : List Nat)).getD v []
      ↔ v < B ∧ j < ([] : List (List Nat)).length ∧ v ∈ ([] : List (List Nat)).getD j [] := by
  rw [List.getD_eq_getElem?_getD, List.getElem?_replicate]
  by_cases hv : v < B
  · rw [if_pos hv]
    simp
  · rw [if_neg hv]
    simp

lemma smallGo_inv (f : List Nat) (expected N : Nat) :
    ∀ (fuel pos bytesRead : Nat) (st : List (List Nat) × List (List Nat)),
      st.2.length = N → st.1.length ≤ N →
      (∀ v j, j ∈ st.2.getD v [] ↔ v < N ∧ j < st.1.length ∧ v ∈ st.1.getD j []) →
      (smallGo f expected N fuel pos bytesRead st).2.length = N ∧
      (smallGo f expected N fuel pos bytesRead st).1.length ≤ N ∧
      ∀ v j, j ∈ (smallGo f expected N fuel pos bytesRead st).2.getD v []
        ↔ v < N ∧ j < (smallGo f expected N fuel pos bytesRead st).1.length
            ∧ v ∈ (smallGo f expected N fuel pos bytesRead st).1.getD j [] := by
  intro fuel
  induction fuel with
  | zero =>
    intro pos bytesRead st h1 h2 h3
    exact ⟨h1, h2, h3⟩
  | succ fuel ih =>
    intro pos bytesRead st h1 h2 h3
    rw [smallGo]
    by_cases hb : bytesRead = expected
    · rw [if_pos hb]; exact ⟨h1, h2, h3⟩
    rw [if_neg hb]
    by_cases hN : N ≤ st.1.length
    · rw [if_pos hN]; exact ⟨h1, h2, h3⟩
    rw [if_neg hN]
    by_cases hp : pos + 4 ≤ f.length
    · rw [if_pos hp]
      by_cases hp2 : pos + 4 + 4 * leVal ((f.drop pos).take 4) ≤ f.length
      · rw [if_pos hp2]
        have hstep := revStep_inv st.1 st.2
          (decodeU32s ((f.drop (pos + 4)).take (4 * leVal ((f.drop pos).take 4)))) N
          h1 (by omega) h3
        exact ih _ _ _ hstep.1 hstep.2.1 hstep.2.2
      · rw [if_neg hp2]; exact ⟨h1, h2, h3⟩
    · rw [if_neg hp]; exact ⟨h1, h2, h3⟩

lemma diskSmallInner_inv (page : List Nat) (nnodes mrl dimB Ncl secBase : Nat) :
    ∀ (fuel j : Nat) (st : List (List Nat) × List (List Nat)),
      st.2.length = Ncl → st.1.length ≤ Ncl →
      (∀ v k, k ∈ st.2.getD v [] ↔ v < Ncl ∧ k < st.1.length ∧ v ∈ st.1.getD k []) →
      (diskSmallInner page nnodes mrl dimB Ncl secBase fuel j st).2.length = Ncl ∧
      (diskSmallInner page nnodes mrl dimB Ncl secBase fuel j st).1.length ≤ Ncl ∧
      ∀ v k, k ∈ (diskSmallInner page nnodes mrl dimB Ncl secBase fuel j st).2.getD v []
        ↔ v < Ncl ∧ k < (diskSmallInner page nnodes mrl dimB Ncl secBase fuel j st).1.length
            ∧ v ∈ (diskSmallInner page nnodes mrl dimB Ncl secBase fuel j st).1.getD k [] := by
  intro fuel
  induction fuel with
  | zero =>
    intro j st h1 h2 h3
    exact ⟨h1, h2, h3⟩
  | succ fuel ih =>
    intro j st h1 h2 h3
    rw [diskSmallInner]
    by_cases hc : Ncl ≤ st.1.length
    · rw [if_pos hc]; exact ⟨h1, h2, h3⟩
    rw [if_neg hc]
    by_cases hn : nnodes ≤ (secBase + j) % U64_MOD
    · rw [if_pos hn]; exact ⟨h1, h2, h3⟩
    rw [if_neg hn]
    by_cases ho : kSectorLen < (j * mrl % U64_MOD + dimB + 4) % U64_MOD
    · rw [if_pos ho]; exact ⟨h1, h2, h3⟩
    rw [if_neg ho]
    have hstep := revStep_inv st.1 st.2
      (diskSlotNbrs page ((j * mrl % U64_MOD + dimB) % U64_MOD)) Ncl h1 (by omega) h3
    exact ih _ _ hstep.1 hstep.2.1 hstep.2.2

lemma diskSmallSector_inv (f : List Nat) (nnodes rpp mrl dimB Ncl : Nat) :
    ∀ (fuel sec : Nat) (st : List (List Nat) × List (List Nat)),
      st.2.length = Ncl → st.1.length ≤ Ncl →
      (∀ v k, k ∈ st.2.getD v [] ↔ v < Ncl ∧ k < st.1.length ∧ v ∈ st.1.getD k []) →
      (diskSmallSector f nnodes rpp mrl dimB Ncl fuel sec st).2.length = Ncl ∧
      (diskSmallSector f nnodes rpp mrl dimB Ncl fuel sec st).1.length ≤ Ncl ∧
      ∀ v k, k ∈ (diskSmallSector f nnodes rpp mrl dimB Ncl fuel sec st).2.getD v []
        ↔ v < Ncl ∧ k < (diskSmallSector f nnodes rpp mrl dimB Ncl fuel sec st).1.length
            ∧ v ∈ (diskSmallSector f nnodes rpp mrl dimB Ncl fuel sec st).1.getD k [] := by
  intro fuel
  induction fuel with
  | zero =>
    intro sec st h1 h2 h3
    exact ⟨h1, h2, h3⟩
  | succ fuel ih =>
    intro sec st h1 h2 h3
    rw [diskSmallSector]
    by_cases hc : Ncl ≤ st.1.length
    · rw [if_pos hc]; exact ⟨h1, h2, h3⟩
    rw [if_neg hc]
    by_cases hpg : (f.drop (kDiskIndexDataOffset + sec * kSectorLen + kSectorLen - 1)).isEmpty
      = true
    · rw [if_pos hpg]; exact ⟨h1, h2, h3⟩
    rw [if_neg hpg]
    have hinner := diskSmallInner_inv
      ((f.drop (kDiskIndexDataOffset + sec * kSectorLen)).take kSectorLen)
      nnodes mrl dimB Ncl (sec * rpp % U64_MOD) rpp 0 st h1 h2 h3
    exact ih _ _ hinner.1 hinner.2.1 hinner.2.2

lemma getD_take_lt (l : List (List Nat)) (k v : Nat) (hv : v < k) :
    (l.take k).getD v [] = l.getD v [] := by
  rw [List.getD_eq_getElem?_getD, List.getElem?_take, if_pos hv, ← List.getD_eq_getElem?_getD]

lemma truncPair_eq (p : List (List Nat) × List (List Nat)) :
    truncPair p = (p.1, p.2.take p.1.length) := rfl

/-- C7: for every small-graph sample (layout A/B or layout C) that the
sampler returns, at most the requested `N` nodes are reported, the
reverse table is truncated to exactly the nodes actually read, and for
every sampled node `v` the `referenced_by` list of `v` holds precisely
the sampled node ids `j` whose out-neighbor list contains `v`; a target
at or beyond the sample bound has no slot and is never recorded. -/
theorem c7_reverse_edges :
    (∀ (file : Option (List Nat)) (offset N : Nat) (outs ins : List (List Nat)),
      print_small_graph_from_file file offset N = some (outs, ins) →
      outs.length ≤ N ∧ ins.length = outs.length ∧
      ∀ v, v < outs.length → ∀ j,
        (j ∈ ins.getD v [] ↔ j < outs.length ∧ v ∈ outs.getD j [])) ∧
    (∀ (file : Option (List Nat)) (dt : DiskIndexDataType) (N : Nat)
        (outs ins : List (List Nat)),
      print_small_graph_from_disk_index file dt N = some (outs, ins) →
      outs.length ≤ N ∧ ins.length = outs.length ∧
      ∀ v, v < outs.length → ∀ j,
        (j ∈ ins.getD v [] ↔ j < outs.length ∧ v ∈ outs.getD j [])) := by
  constructor
  · intro file offset N outs ins h
    match file with
    | none => exact absurd h (by simp [print_small_graph_from_file])
    | some f =>
      rcases hr1 : readLE f offset 8 with _ | expected <;>
        rcases hr2 : readLE f (offset + 8) 4 with _ | w <;>
        rcases hr3 : readLE f (offset + 12) 4 with _ | ep <;>
        rcases hr4 : readLE f (offset + 16) 8 with _ | fr <;>
        simp only [print_small_graph_from_file, hr1, hr2, hr3, hr4] at h
      all_goals try exact Option.noConfusion h
      rw [truncPair_eq] at h
      have heq := Option.some.inj h
      injection heq with ho hi
      have hinv := smallGo_inv f expected N (f.length + 1) (offset + 24) 24
        ([], List.replicate N []) (by simp) (by simp) (fun v j => replicate_inv N v j)
      obtain ⟨h1, h2, h3⟩ := hinv
      subst ho hi
      refine ⟨h2, ?_, ?_⟩
      · rw [List.length_take, h1]
        omega
      · intro v hv j
        rw [getD_take_lt _ _ _ hv, h3 v j]
        constructor
        · rintro ⟨_, hj, hm⟩
          exact ⟨hj, hm⟩
        · rintro ⟨hj, hm⟩
          exact ⟨by omega, hj, hm⟩
  · intro file dt N outs ins h
    match file with
    | none => exact absurd h (by simp [print_small_graph_from_disk_index])
    | some f =>
      rcases hres : resolveDiskHeader f with g | g | _ <;>
        simp only [print_small_graph_from_disk_index, hres] at h
      all_goals try exact Option.noConfusion h
      all_goals {
        by_cases hz : g.nnodes_per_sector = 0
        · rw [if_pos hz] at h
          exact absurd h (by simp)
        rw [if_neg hz] at h
        by_cases hs : g.max_node_len < (g.disk_ndims * elem_size dt % U64_MOD + 4) % U64_MOD
          ∨ kSectorLen < g.max_node_len
        · rw [if_pos hs] at h
          exact absurd h (by simp)
        rw [if_neg hs] at h
        rw [truncPair_eq] at h
        have heq := Option.some.inj h
        injection heq with ho hi
        have hinv := diskSmallSector_inv f g.disk_nnodes g.nnodes_per_sector g.max_node_len
          (g.disk_ndims * elem_size dt % U64_MOD) (min N g.disk_nnodes)
          ((g.disk_nnodes + g.nnodes_per_sector - 1) % U64_MOD / g.nnodes_per_sector) 0
          ([], List.replicate (min N g.disk_nnodes) []) (by simp) (by simp)
          (fun v k => replicate_inv (min N g.disk_nnodes) v k)
        obtain ⟨h1, h2, h3⟩ := hinv
        subst ho hi
        refine ⟨by omega, ?_, ?_⟩
        · rw [List.length_take, h1]
          omega
        · intro v hv j
          rw [getD_take_lt _ _ _ hv, h3 v j]
          constructor
          · rintro ⟨_, hj, hm⟩
            exact ⟨hj, hm⟩
          · rintro ⟨hj, hm⟩
            exact ⟨by omega, hj, hm⟩
      }

lemma diskSmallInner_one (page : List Nat) :
    diskSmallInner page 1 8 4 1 0 1 0 ([], [[]])
      = ([diskSlotNbrs page 4], pushRev [[]] 0 (diskSlotNbrs page 4) 1) := rfl

set_option maxRecDepth 100000 in
lemma c7_disk_eval :
    print_small_graph_from_disk_index (some c7DiskFile) DiskIndexDataType.kFloat 1
      = some ([[0]], [[0]]) := by
  have hfront : ((encodeU64 1 ++ (encodeU64 1 ++ (encodeU64 0 ++ (encodeU64 8 ++ encodeU64 1))))
      ++ List.replicate 4056 0).length = 4096 := by
    simp only [List.length_append, List.length_replicate, encodeU64, encodeLE_length]
  have hPlen : c7Page.length = 4096 := by
    simp only [c7Page, List.length_append, List.length_replicate, List.length_cons,
      List.length_nil, encodeU32, encodeLE_length]
  have hLD : c7DiskFile.length = 8192 := by
    simp only [c7DiskFile, List.length_append, List.length_replicate, encodeU64,
      encodeLE_length, hPlen]
  have hd4096 : c7DiskFile.drop 4096 = c7Page := by
    rw [c7DiskFile]
    exact List.drop_left' hfront
  have hpageP : (c7DiskFile.drop 4096).take kSectorLen = c7Page := by
    rw [hd4096]
    exact List.take_of_length_le (by rw [hPlen]; norm_num [kSectorLen])
  have hslot : diskSlotNbrs c7Page 4 = [0] := by decide
  have hpg : ¬((c7DiskFile.drop
      (kDiskIndexDataOffset + 0 * kSectorLen + kSectorLen - 1)).isEmpty = true) := by
    rw [drop_isEmpty_iff, hLD]
    norm_num [kDiskIndexDataOffset, kSectorLen]
  have h0 : print_small_graph_from_disk_index (some c7DiskFile) DiskIndexDataType.kFloat 1
      = some (truncPair (diskSmallSector c7DiskFile 1 1 8 4 1 (0 + 1) 0 ([], [[]]))) := rfl
  have hsecD : diskSmallSector c7DiskFile 1 1 8 4 1 (0 + 1) 0 ([], [[]]) = ([[0]], [[0]]) := by
    rw [diskSmallSector, if_neg (by decide), if_neg hpg, diskSmallSector,
      show kDiskIndexDataOffset + 0 * kSectorLen = 4096 from rfl,
      show (0 * 1 % U64_MOD : Nat) = 0 from rfl, hpageP, diskSmallInner_one, hslot]
    decide
  rw [h0, hsecD]
  rfl

/-- Witness for C7: the spec's example `0 -> 1, 1 -> 2, 2 -> 0, 0 -> 5`
(5 outside the sample of 3) on layout A, and the one-node self-loop disk
index: node 1's referenced_by is `[0]`, and membership matches the
out-edge in both samplers. -/
theorem c7_witness :
    (0 ∈ [[2], [0], [1]].getD 1 ([] : List Nat) ↔
      0 < ([[1, 5], [2], [0]] : List (List Nat)).length
        ∧ 1 ∈ [[1, 5], [2], [0]].getD 0 ([] : List Nat)) ∧
    (0 ∈ [[0]].getD 0 ([] : List Nat) ↔
      0 < ([[0]] : List (List Nat)).length ∧ 0 ∈ [[0]].getD 0 ([] : List Nat)) :=
  ⟨(c7_reverse_edges.1 (some c7FileA) 0 3 [[1, 5], [2], [0]] [[2], [0], [1]]
      (by decide)).2.2 1 (by decide) 0,
   (c7_reverse_edges.2 (some c7DiskFile) DiskIndexDataType.kFloat 1 [[0]] [[0]]
      c7_disk_eval).2.2 0 (by decide) 0⟩

end PipeANN
